import Mathlib

/-!
# gh-actions-cache: `internal/utils.go`

A shallow embedding of the helpers of `internal/utils.go` and the properties
proved about them.

Conventions of the embedding.

* A Go `string` is a sequence of bytes: `GoString := List UInt8`.  `len(s)` is
  `List.length`, `s[:n]` is `List.take` guarded by the bounds check of the Go
  runtime, string concatenation is `++`.
* Go `int` values are mathematical integers (`Int`); the only place where the
  64-bit range matters is the conversion `int(f)` of a `float64`, which is
  modelled as failing outside the `int64` range.
* A finite `float64` is the rational number it denotes (`ℚ`).  Every float64
  operation is the exact operation followed by `roundToFloat64`, the
  round-to-nearest, ties-to-even rounding onto the 53-bit binary64 grid.
  Where a `float64` comes from outside (`FormatCacheSize`), the type `Float64`
  adds NaN and the infinities.  The sign of zero is not represented.
* Code that may panic returns `Option`; `none` is the panic.
-/

namespace GhActionsCache

/-! ## Go strings -/

/-- A Go string: an immutable sequence of bytes. -/
abbrev GoString := List UInt8

/-- The bytes (UTF-8) of a string literal of the source. -/
def str (s : String) : GoString := s.toUTF8.data.toList

/-- Go `s[:hi]` on a string: panics unless `0 ≤ hi ≤ len(s)`. -/
def sliceTo (s : GoString) (hi : Int) : Option GoString :=
  if 0 ≤ hi ∧ hi ≤ (s.length : Int) then some (s.take hi.toNat) else none

/-- Go `strings.Repeat(s, count)`: panics if `count` is negative. -/
def stringsRepeat (s : GoString) (count : Int) : Option GoString :=
  if count < 0 then none else some (List.replicate count.toNat s).flatten

/-! ## Go errors and `errors.As` -/

/-- The fields of `api.HTTPError` (go-gh) read by this package. -/
structure HTTPError where
  Message : GoString
  StatusCode : Int
deriving DecidableEq, Repr, Inhabited

mutual
/-- A non-nil Go error value, as seen by `errors.As`: either a value of type
`api.HTTPError` (which has no `Unwrap` and no `As` method), or an error of
another type, described by its text, by what its `As` method (if it has one and
the method returns true) stores in an `api.HTTPError` target, and by the errors
its `Unwrap` returns (none, one for `Unwrap() error`, several for
`Unwrap() []error`). -/
inductive GoError where
  | http (e : HTTPError)
  | other (text : GoString) (asMethod : Option HTTPError) (unwrap : GoErrors)
/-- The errors returned by an `Unwrap` method, in order. -/
inductive GoErrors where
  | nil
  | cons (head : GoError) (tail : GoErrors)
end

/-- A Go `error` interface value; `none` is `nil`. -/
abbrev GoErr := Option GoError

/-- The list of errors as the result of an `Unwrap`. -/
def GoErrors.ofList : List GoError → GoErrors
  | [] => .nil
  | e :: es => .cons e (GoErrors.ofList es)

/-- An error of another type without `Unwrap` and without `As` (`errors.New`). -/
def GoError.leaf (text : GoString) : GoError := .other text none .nil

/-- An error of another type whose `Unwrap` returns `inner` (`fmt.Errorf` with
one `%w`). -/
def GoError.wrap (text : GoString) (inner : GoError) : GoError :=
  .other text none (.cons inner .nil)

/-- The error built by `errors.Join(errs...)`: its `Unwrap` returns `errs`. -/
def GoError.join (errs : List GoError) : GoError := .other [] none (GoErrors.ofList errs)

mutual
/-- The walk of `errors.As` for a target of type `api.HTTPError`: the error
itself when it has that type, else what its `As` method stores, else the first
hit, depth first, among the errors its `Unwrap` returns. -/
def GoError.findHTTPError : GoError → Option HTTPError
  | .http e => some e
  | .other _ (some h) _ => some h
  | .other _ none children => children.findHTTPError
/-- The loop of `errors.As` over the result of `Unwrap() []error`. -/
def GoErrors.findHTTPError : GoErrors → Option HTTPError
  | .nil => none
  | .cons head tail =>
    match head.findHTTPError with
    | some h => some h
    | none => tail.findHTTPError
end

/-- The HTTP error that `errors.As` finds in `err`, if any. -/
def firstHTTPError (err : GoErr) : Option HTTPError :=
  match err with
  | none => none
  | some e => e.findHTTPError

/-- Go `errors.As(err, &target)` for a target of type `api.HTTPError`: returns
whether an HTTP error was found, together with the new value of `target` (left
unchanged when nothing is found). -/
def errorsAs (err : GoErr) (target : HTTPError) : Bool × HTTPError :=
  match firstHTTPError err with
  | some h => (true, h)
  | none => (false, target)

mutual
/-- The HTTP error `h` is the error itself or one of the errors reached from it
through `Unwrap`. -/
def GoError.Wraps (h : HTTPError) : GoError → Prop
  | .http e => e = h
  | .other _ _ children => children.Wraps h
/-- The HTTP error `h` is reached from one of the errors of the list. -/
def GoErrors.Wraps (h : HTTPError) : GoErrors → Prop
  | .nil => False
  | .cons head tail => head.Wraps h ∨ tail.Wraps h
end

/-- The error `err` is, or wraps, the HTTP error `h`. -/
def IsOrWraps (err : GoErr) (h : HTTPError) : Prop :=
  match err with
  | none => False
  | some e => e.Wraps h

mutual
/-- The error is a plain chain: no `As` method and at most one unwrapped error
at every level. -/
def GoError.IsChain : GoError → Prop
  | .http _ => True
  | .other _ asMethod children => asMethod = none ∧ children.IsChain
/-- The result of `Unwrap` is empty or one error that is a plain chain. -/
def GoErrors.IsChain : GoErrors → Prop
  | .nil => True
  | .cons head .nil => head.IsChain
  | .cons _ (.cons _ _) => False
end

/-- The error value is nil or a plain chain. -/
def IsChainErr (err : GoErr) : Prop :=
  match err with
  | none => True
  | some e => e.IsChain

/-- Modelled from the spec: the struct `types.HandledError` (package `types` of
this repository), of which `HttpErrorHandler` sets the fields `Message` and
`InnerError`. -/
structure HandledError where
  Message : GoString
  InnerError : GoErr

/-- The message of the last branch of `HttpErrorHandler`. -/
def internalErrorMessage : GoString :=
  str "We could not process your request due to internal error."

/-- `HttpErrorHandler` (utils.go, lines 133-142). -/
def HttpErrorHandler (err : GoErr) (errMsg404 : GoString) : HandledError :=
  let httpError : HTTPError := { Message := [], StatusCode := 0 }
  let r1 := errorsAs err httpError
  if r1.1 && r1.2.StatusCode == 404 then
    { Message := errMsg404, InnerError := err }
  else
    let r2 := errorsAs err r1.2
    if r2.1 && decide (r2.2.StatusCode ≥ 400) && decide (r2.2.StatusCode < 500) then
      { Message := r2.2.Message, InnerError := err }
    else
      { Message := internalErrorMessage, InnerError := err }

/-! ## binary64 arithmetic -/

/-- Number of binary digits of `n`, by halving; `fuel` bounds the recursion. -/
def bitLengthAux : Nat → Nat → Nat
  | 0, _ => 0
  | fuel + 1, n => if n = 0 then 0 else bitLengthAux fuel (n / 2) + 1

/-- Number of binary digits of `n` (`0` for `n = 0`). -/
def bitLength (n : Nat) : Nat := bitLengthAux n n

/-- The binary exponent of a non-zero rational: the `e` with `2^e ≤ |q| < 2^(e+1)`. -/
def floorLog2 (q : ℚ) : Int :=
  let e : Int := (bitLength q.num.natAbs : Int) - (bitLength q.den : Int)
  if (2 : ℚ) ^ e ≤ |q| then e else e - 1

/-- Rounding to the nearest integer, ties to the even one. -/
def roundHalfEven (x : ℚ) : Int :=
  let f := ⌊x⌋
  let r := x - f
  if r < 1 / 2 then f
  else if 1 / 2 < r then f + 1
  else if f % 2 = 0 then f else f + 1

/-- The binary64 value nearest to `q` (ties to even): 53 significant bits, unit
in the last place `2^(e-52)` in the binade `2^e ≤ |q| < 2^(e+1)`, gradual
underflow below `2^(-1022)`.  Overflow to infinity (magnitudes from `2^1024`) is
not represented; no value of this package comes near it. -/
def roundToFloat64 (q : ℚ) : ℚ :=
  if q = 0 then 0
  else
    let e := max (floorLog2 q) (-1022)
    let ulp : ℚ := 2 ^ (e - 52)
    (roundHalfEven (q / ulp) : ℚ) * ulp

/-- Go `float64(n)` for an `int` `n`. -/
def intToFloat64 (n : Int) : ℚ := roundToFloat64 (n : ℚ)

/-- Go `int(f)` for a finite `float64` `f`: truncation towards zero.  Outside the
`int64` range the result is implementation-dependent (Go specification,
"Conversions"); that case is `none`. -/
def float64ToInt (f : ℚ) : Option Int :=
  let z : Int := if 0 ≤ f then ⌊f⌋ else ⌈f⌉
  if -2 ^ 63 ≤ z ∧ z < 2 ^ 63 then some z else none

/-- Go `math.Floor` on a finite `float64`. -/
def mathFloor (f : ℚ) : ℚ := ((⌊f⌋ : Int) : ℚ)

/-- Go `math.Max` on finite `float64`s. -/
def mathMax (x y : ℚ) : ℚ := max x y

/-- Go `x * y` on `float64`s. -/
def float64Mul (x y : ℚ) : ℚ := roundToFloat64 (x * y)

/-- Go `x / y` on `float64`s (`y` non-zero). -/
def float64Div (x y : ℚ) : ℚ := roundToFloat64 (x / y)

/-- A Go `float64`: a finite value (the rational it denotes), an infinity or
NaN.  The sign of zero is not represented. -/
inductive Float64 where
  | finite (q : ℚ)
  | posInf
  | negInf
  | nan
deriving DecidableEq

instance (n : Nat) : OfNat Float64 n := ⟨Float64.finite n⟩

/-- Go `x < c` for a `float64` `x` and a finite constant `c`: false on NaN. -/
def Float64.lt (x : Float64) (c : ℚ) : Bool :=
  match x with
  | .finite q => decide (q < c)
  | .posInf => false
  | .negInf => true
  | .nan => false

/-- Go `x >= c` for a `float64` `x` and a finite constant `c`: false on NaN. -/
def Float64.ge (x : Float64) (c : ℚ) : Bool :=
  match x with
  | .finite q => decide (c ≤ q)
  | .posInf => true
  | .negInf => false
  | .nan => false

/-- Go `x / c` for a `float64` `x` and a finite positive constant `c`. -/
def Float64.div (x : Float64) (c : ℚ) : Float64 :=
  match x with
  | .finite q => .finite (float64Div q c)
  | .posInf => .posInf
  | .negInf => .negInf
  | .nan => .nan

/-! ## `fmt` verbs -/

/-- The decimal digits of a natural number, as ASCII bytes. -/
def decimal (n : Nat) : GoString := (Nat.toDigits 10 n).map (fun c => c.toNat.toUInt8)

/-- The verb `%d` on an `int`. -/
def fmtInt (n : Int) : GoString :=
  if n < 0 then str "-" ++ decimal n.natAbs else decimal n.natAbs

/-- The verb `%.2f` on a finite `float64`: the sign, then the exact value rounded
to two decimals, ties to even (`strconv.FormatFloat(x, 'f', 2, 64)`). -/
def fmtFixed2 (x : ℚ) : GoString :=
  let r : Nat := (roundHalfEven (|x| * 100)).toNat
  (if x < 0 then str "-" else []) ++ decimal (r / 100) ++ str "." ++
    [(48 + (r % 100) / 10).toUInt8, (48 + r % 10).toUInt8]

/-- The verb `%.2f` on a `float64`: `fmtFixed2` on a finite value, and the texts
`+Inf`, `-Inf` and `NaN` that `fmt` prints otherwise. -/
def fmtFloat2 (x : Float64) : GoString :=
  match x with
  | .finite q => fmtFixed2 q
  | .posInf => str "+Inf"
  | .negInf => str "-Inf"
  | .nan => str "NaN"

/-! ## `internal/utils.go` -/

/-- `MB_IN_BYTES` (utils.go, line 24). -/
def MB_IN_BYTES : Nat := 1024 * 1024

/-- `GB_IN_BYTES` (utils.go, line 25). -/
def GB_IN_BYTES : Nat := 1024 * 1024 * 1024

/-- `SIZE_COLUMN_WIDTH` (utils.go, line 26). -/
def SIZE_COLUMN_WIDTH : Int := 15

/-- `LAST_ACCESSED_AT_COLUMN_WIDTH` (utils.go, line 27). -/
def LAST_ACCESSED_AT_COLUMN_WIDTH : Int := 20

/-- `FormatCacheSize` (utils.go, lines 37-51). -/
def FormatCacheSize (size_in_bytes : Float64) : GoString :=
  if size_in_bytes.lt 1024 then
    fmtFloat2 size_in_bytes ++ str " B"
  else if size_in_bytes.lt (MB_IN_BYTES : ℚ) then
    fmtFloat2 (size_in_bytes.div 1024) ++ str " KB"
  else if size_in_bytes.lt (GB_IN_BYTES : ℚ) then
    fmtFloat2 (size_in_bytes.div (MB_IN_BYTES : ℚ)) ++ str " MB"
  else
    fmtFloat2 (size_in_bytes.div (GB_IN_BYTES : ℚ)) ++ str " GB"

/-- Modelled from the spec: the struct `types.ActionsCache` (package `types` of
this repository), the cache entry: key (text), size in bytes (number), ref
(text), last-accessed timestamp (text). -/
structure ActionsCache where
  Key : GoString
  Ref : GoString
  SizeInBytes : Float64
  LastAccessedAt : GoString

/-- `trimOrPad` (utils.go, lines 84-91). -/
def trimOrPad (value : GoString) (maxSize : Int) : Option GoString :=
  if (value.length : Int) > maxSize then
    (sliceTo value (maxSize - 3)).map (fun cut => cut ++ str "...")
  else
    (stringsRepeat (str " ") (maxSize - (value.length : Int))).map (fun pad => value ++ pad)

/-- `lastAccessedTime` (utils.go, lines 79-82).  The library call
`goment.New(lastAccessedAt)` followed by `FromNow()` is the parameter `fromNow`. -/
def lastAccessedTime (fromNow : GoString → GoString) (lastAccessedAt : GoString) : GoString :=
  str " " ++ fromNow lastAccessedAt

/-- `getFormattedCacheInfo` (utils.go, lines 93-99). -/
def getFormattedCacheInfo (fromNow : GoString → GoString) (cache : ActionsCache)
    (keyWidth sizeWidth refWidth timeWidth : Int) : Option GoString :=
  (trimOrPad cache.Key keyWidth).bind fun key =>
  (trimOrPad (str "[" ++ FormatCacheSize cache.SizeInBytes ++ str "]") sizeWidth).bind fun size =>
  (trimOrPad cache.Ref refWidth).bind fun ref =>
  (trimOrPad (lastAccessedTime fromNow cache.LastAccessedAt) timeWidth).bind fun time =>
  some (key ++ str " " ++ size ++ str " " ++ ref ++ str " " ++ time)

/-- `PrintSingularOrPlural` (utils.go, lines 108-113). -/
def PrintSingularOrPlural (count : Int) (singularStr pluralStr : GoString) : GoString :=
  if count = 1 then
    fmtInt count ++ str " " ++ singularStr
  else
    fmtInt count ++ str " " ++ pluralStr

/-- What `getTerminalWidth` reads from its environment: whether the file is a
Cygwin terminal, the result of `term.GetSize`, whether `safeexec.LookPath` finds
`tput`, and the number obtained from the output of `tput cols` by
`strings.TrimSpace` and `strconv.Atoi` (`none` when the command or the parse
fails). -/
structure Terminal where
  isCygwinTerminal : Bool
  termGetSize : Int × Int × GoErr
  tputFound : Bool
  tputCols : Option Int

/-- `getTerminalWidth` (utils.go, lines 115-131). -/
def getTerminalWidth (f : Terminal) : Int × Int × GoErr :=
  if !f.isCygwinTerminal then
    f.termGetSize
  else if !f.tputFound then
    (100, 100, none)
  else
    match f.tputCols with
    | some w => (w, 100, none)
    | none => (100, 100, none)

/-- The column layout computed by `PrettyPrintCacheList`. -/
structure Layout where
  width : Int
  keyWidth : Int
  sizeWidth : Int
  refWidth : Int
  timeWidth : Int
deriving DecidableEq, Repr

/-- Line 55 of utils.go: `int(math.Max(float64(width), 100))`. -/
def layoutWidth (width : Int) : Option Int :=
  float64ToInt (mathMax (intToFloat64 width) 100)

/-- Lines 55-59 of utils.go: the layout for a detected terminal width. -/
def layout (detected : Int) : Option Layout :=
  (layoutWidth detected).bind fun width =>
  (float64ToInt (mathFloor (float64Mul (roundToFloat64 (65 / 100))
      (intToFloat64 (width - SIZE_COLUMN_WIDTH - LAST_ACCESSED_AT_COLUMN_WIDTH))))).bind
    fun keyWidth =>
  (float64ToInt (mathFloor (float64Mul (roundToFloat64 (20 / 100))
      (intToFloat64 (width - SIZE_COLUMN_WIDTH - LAST_ACCESSED_AT_COLUMN_WIDTH))))).bind
    fun refWidth =>
  some { width := width, keyWidth := keyWidth, sizeWidth := SIZE_COLUMN_WIDTH,
         refWidth := refWidth, timeWidth := LAST_ACCESSED_AT_COLUMN_WIDTH }

/-- The loop of `PrettyPrintCacheList` (lines 61-64): one `fmt.Println` per
cache; the result is the text written to standard output. -/
def printRows (fromNow : GoString → GoString) (l : Layout) :
    List ActionsCache → Option GoString
  | [] => some []
  | cache :: rest =>
    (getFormattedCacheInfo fromNow cache l.keyWidth l.sizeWidth l.refWidth l.timeWidth).bind
      fun formattedRow =>
    (printRows fromNow l rest).bind fun out =>
    some (formattedRow ++ str "\n" ++ out)

/-- `PrettyPrintCacheList` (utils.go, lines 53-65): the text written to standard
output, `none` on a panic. -/
def PrettyPrintCacheList (fromNow : GoString → GoString) (stdout : Terminal)
    (caches : List ActionsCache) : Option GoString :=
  (layout (getTerminalWidth stdout).1).bind fun l => printRows fromNow l caches

/-- `PrettyPrintTrimmedCacheList` (utils.go, lines 67-77). -/
def PrettyPrintTrimmedCacheList (fromNow : GoString → GoString) (stdout : Terminal)
    (caches : List ActionsCache) : Option GoString :=
  let length : Int := caches.length
  let limit : Int := 30
  if length > limit then
    (PrettyPrintCacheList fromNow stdout (caches.take limit.toNat)).map fun out =>
      out ++ (str "... and " ++ fmtInt (length - limit) ++ str " more\n\n") ++ str "\n"
  else
    (PrettyPrintCacheList fromNow stdout (caches.take length.toNat)).map fun out =>
      out ++ str "\n"

/-! ## Errors: `HttpErrorHandler` -/

mutual
theorem GoError.find_of_chain (h : HTTPError) :
    ∀ e : GoError, e.IsChain → e.Wraps h → e.findHTTPError = some h
  | .http e0, _, hw => by
    simp only [GoError.Wraps] at hw
    simp [GoError.findHTTPError, hw]
  | .other _ a c, hc, hw => by
    simp only [GoError.IsChain] at hc
    obtain ⟨ha, hc2⟩ := hc
    subst ha
    simp only [GoError.Wraps] at hw
    simp only [GoError.findHTTPError]
    exact GoErrors.findList_of_chain h c hc2 hw
theorem GoErrors.findList_of_chain (h : HTTPError) :
    ∀ c : GoErrors, c.IsChain → c.Wraps h → c.findHTTPError = some h
  | .nil, _, hw => by simp [GoErrors.Wraps] at hw
  | .cons head .nil, hc, hw => by
    simp only [GoErrors.IsChain] at hc
    simp only [GoErrors.Wraps, or_false] at hw
    simp [GoErrors.findHTTPError, GoError.find_of_chain h head hc hw]
  | .cons _ (.cons _ _), hc, _ => by simp [GoErrors.IsChain] at hc
end

mutual
theorem GoError.wraps_of_find_chain (h : HTTPError) :
    ∀ e : GoError, e.IsChain → e.findHTTPError = some h → e.Wraps h
  | .http e0, _, hf => by
    simp only [GoError.findHTTPError, Option.some.injEq] at hf
    simp [GoError.Wraps, hf]
  | .other _ a c, hc, hf => by
    simp only [GoError.IsChain] at hc
    obtain ⟨ha, hc2⟩ := hc
    subst ha
    simp only [GoError.findHTTPError] at hf
    simp only [GoError.Wraps]
    exact GoErrors.wrapsList_of_find_chain h c hc2 hf
theorem GoErrors.wrapsList_of_find_chain (h : HTTPError) :
    ∀ c : GoErrors, c.IsChain → c.findHTTPError = some h → c.Wraps h
  | .nil, _, hf => by simp [GoErrors.findHTTPError] at hf
  | .cons head .nil, hc, hf => by
    simp only [GoErrors.IsChain] at hc
    simp only [GoErrors.Wraps, or_false]
    apply GoError.wraps_of_find_chain h head hc
    cases hh : head.findHTTPError with
    | some x => simpa [GoErrors.findHTTPError, hh] using hf
    | none => simp [GoErrors.findHTTPError, hh] at hf
  | .cons _ (.cons _ _), hc, _ => by simp [GoErrors.IsChain] at hc
end

theorem firstHTTPError_of_chain (err : GoErr) (h : HTTPError) (hc : IsChainErr err)
    (hw : IsOrWraps err h) : firstHTTPError err = some h := by
  cases err with
  | none => exact absurd hw (by simp [IsOrWraps])
  | some e => exact GoError.find_of_chain h e hc hw

theorem isOrWraps_of_firstHTTPError (err : GoErr) (h : HTTPError) (hc : IsChainErr err)
    (hf : firstHTTPError err = some h) : IsOrWraps err h := by
  cases err with
  | none => simp [firstHTTPError] at hf
  | some e => exact GoError.wraps_of_find_chain h e hc hf

theorem message_of_found (err : GoErr) (h : HTTPError) (errMsg404 : GoString)
    (hf : firstHTTPError err = some h) :
    (HttpErrorHandler err errMsg404).Message =
      if h.StatusCode = 404 then errMsg404
      else if 400 ≤ h.StatusCode ∧ h.StatusCode < 500 then h.Message
      else internalErrorMessage := by
  simp only [HttpErrorHandler, errorsAs, hf]
  by_cases c : h.StatusCode = 404
  · simp [c]
  · by_cases c1 : 400 ≤ h.StatusCode <;> by_cases c2 : h.StatusCode < 500 <;> simp [c, c1, c2]

theorem message_of_not_found (err : GoErr) (errMsg404 : GoString)
    (hf : firstHTTPError err = none) :
    (HttpErrorHandler err errMsg404).Message = internalErrorMessage := by
  simp [HttpErrorHandler, errorsAs, hf]

/-- C1 (amended). Whenever the HTTP error that `errors.As` finds in `err` (the
error itself, else depth first through `Unwrap`) has status code 404, the
message of the handled error is the caller's `errMsg404`, whatever message the
HTTP error carries; in particular this holds for every `err` that is a 404 HTTP
error or wraps one along a plain chain of single `Unwrap`s. -/
theorem HttpErrorHandler_notFound (err : GoErr) (h : HTTPError) (errMsg404 : GoString)
    (hc : h.StatusCode = 404) :
    (firstHTTPError err = some h → (HttpErrorHandler err errMsg404).Message = errMsg404) ∧
      (IsChainErr err → IsOrWraps err h →
        (HttpErrorHandler err errMsg404).Message = errMsg404) := by
  have key : firstHTTPError err = some h →
      (HttpErrorHandler err errMsg404).Message = errMsg404 := by
    intro hf
    rw [message_of_found err h errMsg404 hf, if_pos hc]
  exact ⟨key, fun hch hw => key (firstHTTPError_of_chain err h hch hw)⟩

theorem HttpErrorHandler_notFound_witness :
    (HttpErrorHandler (some (.wrap (str "listing caches") (.http ⟨str "Not Found", 404⟩)))
        (str "The given repo does not exist.")).Message = str "The given repo does not exist." ∧
      (HttpErrorHandler
        (some (.join [.leaf (str "context canceled"), .http ⟨str "Not Found", 404⟩]))
        (str "The given repo does not exist.")).Message = str "The given repo does not exist." :=
  ⟨(HttpErrorHandler_notFound _ ⟨str "Not Found", 404⟩ _ rfl).2
      (by simp [IsChainErr, GoError.wrap, GoError.IsChain, GoErrors.IsChain])
      (by simp [IsOrWraps, GoError.wrap, GoError.Wraps, GoErrors.Wraps]),
   (HttpErrorHandler_notFound _ ⟨str "Not Found", 404⟩ _ rfl).1 (by decide)⟩

/-- C1 (as stated) fails on a joined error: `errors.Join` of a 403 HTTP error
and a 404 HTTP error wraps an HTTP error with status code 404, but `errors.As`
finds the 403 first and the message is the one of the 403, not `errMsg404`. -/
theorem HttpErrorHandler_notFound_counterexample :
    IsOrWraps (some (.join [.http ⟨str "Forbidden", 403⟩, .http ⟨str "Not Found", 404⟩]))
        ⟨str "Not Found", 404⟩ ∧
      (HttpErrorHandler
        (some (.join [.http ⟨str "Forbidden", 403⟩, .http ⟨str "Not Found", 404⟩]))
        (str "The given repo does not exist.")).Message = str "Forbidden" ∧
      str "Forbidden" ≠ str "The given repo does not exist." := by
  refine ⟨?_, by decide, by decide⟩
  simp [IsOrWraps, GoError.join, GoErrors.ofList, GoError.Wraps, GoErrors.Wraps]

/-- C2 (amended). Whenever the HTTP error that `errors.As` finds in `err` has a
status code `s` with `400 ≤ s < 500` and `s ≠ 404`, the message of the handled
error is the message of that HTTP error and the result does not depend on
`errMsg404`; in particular this holds for every `err` that is such an HTTP error
or wraps one along a plain chain of single `Unwrap`s. -/
theorem HttpErrorHandler_clientError (err : GoErr) (h : HTTPError) (errMsg404 : GoString)
    (h400 : 400 ≤ h.StatusCode) (h500 : h.StatusCode < 500) (hne : h.StatusCode ≠ 404) :
    (firstHTTPError err = some h →
        (HttpErrorHandler err errMsg404).Message = h.Message ∧
          ∀ other : GoString, HttpErrorHandler err other = HttpErrorHandler err errMsg404) ∧
      (IsChainErr err → IsOrWraps err h →
        (HttpErrorHandler err errMsg404).Message = h.Message ∧
          ∀ other : GoString, HttpErrorHandler err other = HttpErrorHandler err errMsg404) := by
  have key : firstHTTPError err = some h →
      (HttpErrorHandler err errMsg404).Message = h.Message ∧
        ∀ other : GoString, HttpErrorHandler err other = HttpErrorHandler err errMsg404 := by
    intro hf
    refine ⟨?_, ?_⟩
    · rw [message_of_found err h errMsg404 hf, if_neg hne, if_pos ⟨h400, h500⟩]
    · intro other
      simp [HttpErrorHandler, errorsAs, hf, hne, h400, h500]
  exact ⟨key, fun hch hw => key (firstHTTPError_of_chain err h hch hw)⟩

theorem HttpErrorHandler_clientError_witness :
    (HttpErrorHandler (some (.http ⟨str "Resource not accessible", 403⟩))
        (str "The given repo does not exist.")).Message = str "Resource not accessible" ∧
      ∀ other : GoString,
        HttpErrorHandler (some (.http ⟨str "Resource not accessible", 403⟩)) other =
          HttpErrorHandler (some (.http ⟨str "Resource not accessible", 403⟩))
            (str "The given repo does not exist.") :=
  (HttpErrorHandler_clientError (some (.http ⟨str "Resource not accessible", 403⟩))
    ⟨str "Resource not accessible", 403⟩ (str "The given repo does not exist.")
    (by decide) (by decide) (by decide)).2 (by simp [IsChainErr, GoError.IsChain])
    (by simp [IsOrWraps, GoError.Wraps])

/-- C2 (as stated) fails on a joined error: `errors.Join` of a 404 HTTP error
and a 403 HTTP error wraps an HTTP error with status code 403, but `errors.As`
finds the 404 first: the message is `errMsg404`, not the message of the 403. -/
theorem HttpErrorHandler_clientError_counterexample :
    IsOrWraps (some (.join [.http ⟨str "Not Found", 404⟩, .http ⟨str "Forbidden", 403⟩]))
        ⟨str "Forbidden", 403⟩ ∧
      (HttpErrorHandler
        (some (.join [.http ⟨str "Not Found", 404⟩, .http ⟨str "Forbidden", 403⟩]))
        (str "The given repo does not exist.")).Message = str "The given repo does not exist." ∧
      str "The given repo does not exist." ≠ str "Forbidden" := by
  refine ⟨?_, by decide, by decide⟩
  simp [IsOrWraps, GoError.join, GoErrors.ofList, GoError.Wraps, GoErrors.Wraps]

/-- C3 (amended). Whenever `errors.As` finds no HTTP error in `err`, or the HTTP
error it finds has a status code outside `400..499`, the message is the fixed
internal-error text; in particular this holds for the nil error and for every
plain chain of single `Unwrap`s that contains no HTTP error with a status in
`400..499`.  The three categories, taken on the HTTP error that `errors.As`
finds (404, other 4xx, anything else or none), are exhaustive and mutually
exclusive. -/
theorem HttpErrorHandler_internalError (err : GoErr) (errMsg404 : GoString) :
    ((∀ h, firstHTTPError err = some h → ¬ (400 ≤ h.StatusCode ∧ h.StatusCode < 500)) →
        (HttpErrorHandler err errMsg404).Message =
          str "We could not process your request due to internal error.") ∧
      (IsChainErr err →
        (∀ h, IsOrWraps err h → ¬ (400 ≤ h.StatusCode ∧ h.StatusCode < 500)) →
        (HttpErrorHandler err errMsg404).Message =
          str "We could not process your request due to internal error.") ∧
      ((∃ h, firstHTTPError err = some h ∧ h.StatusCode = 404) ∨
        (∃ h, firstHTTPError err = some h ∧ 400 ≤ h.StatusCode ∧ h.StatusCode < 500 ∧
          h.StatusCode ≠ 404) ∨
        (∀ h, firstHTTPError err = some h → ¬ (400 ≤ h.StatusCode ∧ h.StatusCode < 500))) ∧
      ¬ ((∃ h, firstHTTPError err = some h ∧ h.StatusCode = 404) ∧
        (∃ h, firstHTTPError err = some h ∧ 400 ≤ h.StatusCode ∧ h.StatusCode < 500 ∧
          h.StatusCode ≠ 404)) ∧
      ¬ ((∃ h, firstHTTPError err = some h ∧ h.StatusCode = 404) ∧
        (∀ h, firstHTTPError err = some h → ¬ (400 ≤ h.StatusCode ∧ h.StatusCode < 500))) ∧
      ¬ ((∃ h, firstHTTPError err = some h ∧ 400 ≤ h.StatusCode ∧ h.StatusCode < 500 ∧
          h.StatusCode ≠ 404) ∧
        (∀ h, firstHTTPError err = some h → ¬ (400 ≤ h.StatusCode ∧ h.StatusCode < 500))) := by
  have key : (∀ h, firstHTTPError err = some h → ¬ (400 ≤ h.StatusCode ∧ h.StatusCode < 500)) →
      (HttpErrorHandler err errMsg404).Message =
        str "We could not process your request due to internal error." := by
    intro hout
    cases hf : firstHTTPError err with
    | none => exact message_of_not_found err errMsg404 hf
    | some h =>
      have hr := hout h hf
      have h404 : h.StatusCode ≠ 404 := by intro hc; apply hr; omega
      rw [message_of_found err h errMsg404 hf, if_neg h404, if_neg hr]
      rfl
  refine ⟨key, ?_, ?_, ?_, ?_, ?_⟩
  · intro hch hout
    exact key fun h hf => hout h (isOrWraps_of_firstHTTPError err h hch hf)
  · by_cases hex : ∃ h, firstHTTPError err = some h ∧ 400 ≤ h.StatusCode ∧ h.StatusCode < 500
    · obtain ⟨h, hw, a, b⟩ := hex
      by_cases hc : h.StatusCode = 404
      · exact Or.inl ⟨h, hw, hc⟩
      · exact Or.inr (Or.inl ⟨h, hw, a, b, hc⟩)
    · exact Or.inr (Or.inr fun h hw hr => hex ⟨h, hw, hr.1, hr.2⟩)
  · rintro ⟨⟨h1, w1, c1⟩, ⟨h2, w2, _, _, c2⟩⟩
    rw [w1] at w2
    cases w2
    exact c2 c1
  · rintro ⟨⟨h1, w1, c1⟩, hall⟩
    exact hall h1 w1 (by omega)
  · rintro ⟨⟨h1, w1, a, b, _⟩, hall⟩
    exact hall h1 w1 ⟨a, b⟩

theorem HttpErrorHandler_internalError_witness :
    (HttpErrorHandler (some (.http ⟨str "Server Error", 500⟩)) (str "no such cache")).Message =
        str "We could not process your request due to internal error." ∧
      (HttpErrorHandler (some (.leaf (str "dial tcp: timeout"))) (str "no such cache")).Message =
        str "We could not process your request due to internal error." ∧
      (HttpErrorHandler (some (.http ⟨str "Moved", 301⟩)) (str "no such cache")).Message =
        str "We could not process your request due to internal error." ∧
      (HttpErrorHandler none (str "no such cache")).Message =
        str "We could not process your request due to internal error." :=
  ⟨(HttpErrorHandler_internalError (some (.http ⟨str "Server Error", 500⟩)) _).1 (by
      intro h hf
      have : h = ⟨str "Server Error", 500⟩ := by
        simpa [firstHTTPError, GoError.findHTTPError] using hf.symm
      subst this; decide),
   (HttpErrorHandler_internalError (some (.leaf (str "dial tcp: timeout"))) _).2.1
     (by simp [IsChainErr, GoError.leaf, GoError.IsChain, GoErrors.IsChain])
     (by intro h hw; simp [IsOrWraps, GoError.leaf, GoError.Wraps, GoErrors.Wraps] at hw),
   (HttpErrorHandler_internalError (some (.http ⟨str "Moved", 301⟩)) _).1 (by
      intro h hf
      have : h = ⟨str "Moved", 301⟩ := by
        simpa [firstHTTPError, GoError.findHTTPError] using hf.symm
      subst this; decide),
   (HttpErrorHandler_internalError none _).1 (by intro h hf; simp [firstHTTPError] at hf)⟩

/-- C3 (as stated) fails on an error with an `As` method: an error that is not
an HTTP error and wraps none, but whose `As` method fills the target with status
418, gets the message stored by that method, not the internal-error text. -/
theorem HttpErrorHandler_internalError_counterexample :
    (∀ h, ¬ IsOrWraps (some (.other (str "teapot") (some ⟨str "I am a teapot", 418⟩) .nil)) h) ∧
      (HttpErrorHandler (some (.other (str "teapot") (some ⟨str "I am a teapot", 418⟩) .nil))
        (str "no such cache")).Message = str "I am a teapot" ∧
      str "I am a teapot" ≠ str "We could not process your request due to internal error." := by
  refine ⟨?_, by decide, by decide⟩
  intro h
  simp [IsOrWraps, GoError.Wraps, GoErrors.Wraps]

/-! ## Strings: `trimOrPad` and `PrintSingularOrPlural` -/

theorem flatten_replicate_singleton (n : Nat) (b : UInt8) :
    (List.replicate n [b]).flatten = List.replicate n b := by
  induction n with
  | zero => rfl
  | succ k ih => simp [List.replicate_succ, ih]

theorem str_space : str " " = [32] := by decide

theorem str_ellipsis_length : (str "...").length = 3 := by decide

theorem trimOrPad_eq_of_gt (value : GoString) (maxSize : Int) (h3 : 3 ≤ maxSize)
    (hlen : (value.length : Int) > maxSize) :
    trimOrPad value maxSize = some (value.take (maxSize - 3).toNat ++ str "...") := by
  have hb : 0 ≤ maxSize - 3 ∧ maxSize - 3 ≤ (value.length : Int) := by omega
  simp only [trimOrPad, if_pos hlen, sliceTo, if_pos hb, Option.map_some']

theorem trimOrPad_eq_of_le (value : GoString) (maxSize : Int)
    (hlen : (value.length : Int) ≤ maxSize) :
    trimOrPad value maxSize =
      some (value ++ List.replicate (maxSize - (value.length : Int)).toNat 32) := by
  have hn : ¬ (value.length : Int) > maxSize := by omega
  have hc : ¬ maxSize - (value.length : Int) < 0 := by omega
  simp only [trimOrPad, if_neg hn, stringsRepeat, if_neg hc, Option.map_some', str_space,
    flatten_replicate_singleton]

theorem length_truncated (value : GoString) (maxSize : Int) (h3 : 3 ≤ maxSize)
    (hlen : (value.length : Int) > maxSize) :
    ((value.take (maxSize - 3).toNat ++ str "...").length : Int) = maxSize := by
  rw [List.length_append, List.length_take, str_ellipsis_length]
  omega

theorem length_padded (value : GoString) (maxSize : Int)
    (hlen : (value.length : Int) ≤ maxSize) :
    ((value ++ List.replicate (maxSize - (value.length : Int)).toNat 32).length : Int)
      = maxSize := by
  rw [List.length_append, List.length_replicate]
  omega

theorem trimOrPad_length (value : GoString) (maxSize : Int) (h3 : 3 ≤ maxSize) :
    ∃ r, trimOrPad value maxSize = some r ∧ (r.length : Int) = maxSize := by
  rcases lt_or_le maxSize (value.length : Int) with h | h
  · exact ⟨_, trimOrPad_eq_of_gt value maxSize h3 h, length_truncated value maxSize h3 h⟩
  · exact ⟨_, trimOrPad_eq_of_le value maxSize h, length_padded value maxSize h⟩

/-- C4 (amended). For every string `value` and every width `maxSize ≥ 3` with
`len(value) > maxSize`, the result is the first `maxSize - 3` bytes of `value`
followed by the ellipsis, and its length is exactly `maxSize`. -/
theorem trimOrPad_truncates (value : GoString) (maxSize : Int) (h3 : 3 ≤ maxSize)
    (hlen : (value.length : Int) > maxSize) :
    trimOrPad value maxSize = some (value.take (maxSize - 3).toNat ++ str "...") ∧
      ((value.take (maxSize - 3).toNat ++ str "...").length : Int) = maxSize := by
  exact ⟨trimOrPad_eq_of_gt value maxSize h3 hlen, length_truncated value maxSize h3 hlen⟩

theorem trimOrPad_truncates_witness :
    trimOrPad (str "refs/heads/main") 10 = some (str "refs/he...") ∧
      ((str "refs/he...").length : Int) = 10 :=
  trimOrPad_truncates (str "refs/heads/main") 10 (by decide) (by decide)

/-- C4 (as stated) fails below width 3: on a 4-byte string and width 2 the slice
`value[:maxSize-3]` has a negative bound and the call panics, so no result of
length 2 is produced. -/
theorem trimOrPad_truncation_counterexample :
    ((str "abcd").length : Int) > 2 ∧ trimOrPad (str "abcd") 2 = none := by
  decide

/-- C5. For every string `value` and every width `maxSize` with
`len(value) ≤ maxSize`, the result is `value` followed by `maxSize - len(value)`
spaces (byte 32): its length is exactly `maxSize`, it begins with `value`, and a
string whose length is `maxSize` is returned unchanged. -/
theorem trimOrPad_pads (value : GoString) (maxSize : Int)
    (hlen : (value.length : Int) ≤ maxSize) :
    trimOrPad value maxSize =
        some (value ++ List.replicate (maxSize - (value.length : Int)).toNat 32) ∧
      ((value ++ List.replicate (maxSize - (value.length : Int)).toNat 32).length : Int)
        = maxSize ∧
      (value ++ List.replicate (maxSize - (value.length : Int)).toNat 32).take value.length
        = value ∧
      ((value.length : Int) = maxSize → trimOrPad value maxSize = some value) := by
  have e := trimOrPad_eq_of_le value maxSize hlen
  refine ⟨e, length_padded value maxSize hlen, ?_, ?_⟩
  · simp
  · intro heq
    rw [e, heq]
    simp

theorem trimOrPad_pads_witness :
    trimOrPad (str "main") 7 = some (str "main   ") ∧ trimOrPad (str "main") 4 = some (str "main") :=
  ⟨(trimOrPad_pads (str "main") 7 (by decide)).1.trans (by decide),
   (trimOrPad_pads (str "main") 4 (by decide)).2.2.2 (by decide)⟩

/-- C7. For `count = 1` the result is `"1 "` followed by `singularStr`; for every
other integer `count` (zero and the negative ones included) it is the decimal
rendering of `count`, one space, and `pluralStr`. -/
theorem PrintSingularOrPlural_spec (count : Int) (singularStr pluralStr : GoString) :
    PrintSingularOrPlural 1 singularStr pluralStr = str "1 " ++ singularStr ∧
      (count ≠ 1 →
        PrintSingularOrPlural count singularStr pluralStr =
          fmtInt count ++ str " " ++ pluralStr) := by
  constructor
  · simp only [PrintSingularOrPlural, if_true]
    rfl
  · intro h
    simp only [PrintSingularOrPlural, if_neg h]

theorem PrintSingularOrPlural_spec_witness :
    PrintSingularOrPlural 0 (str "cache") (str "caches") = str "0 caches" ∧
      PrintSingularOrPlural (-12) (str "cache") (str "caches") = str "-12 caches" ∧
      PrintSingularOrPlural 1 (str "cache") (str "caches") = str "1 cache" :=
  ⟨((PrintSingularOrPlural_spec 0 (str "cache") (str "caches")).2 (by decide)).trans (by decide),
   ((PrintSingularOrPlural_spec (-12) (str "cache") (str "caches")).2 (by decide)).trans
     (by decide),
   ((PrintSingularOrPlural_spec 0 (str "cache") (str "caches")).1).trans (by decide)⟩

/-! ## binary64 rounding -/

theorem bitLengthAux_zero (k : Nat) : bitLengthAux k 0 = 0 := by
  cases k <;> simp [bitLengthAux]

theorem bitLengthAux_spec : ∀ (fuel n : Nat), n ≤ fuel → n ≠ 0 →
    2 ^ (bitLengthAux fuel n - 1) ≤ n ∧ n < 2 ^ bitLengthAux fuel n ∧
      1 ≤ bitLengthAux fuel n := by
  intro fuel
  induction fuel with
  | zero => intro n h hn; omega
  | succ k ih =>
    intro n h hn
    simp only [bitLengthAux, if_neg hn]
    by_cases hm : n / 2 = 0
    · have h1 : n = 1 := by omega
      subst h1
      simp [bitLengthAux_zero]
    · obtain ⟨h1, h2, h3⟩ := ih (n / 2) (by omega) hm
      refine ⟨?_, ?_, by omega⟩
      · have : bitLengthAux k (n / 2) + 1 - 1 = (bitLengthAux k (n / 2) - 1) + 1 := by omega
        rw [this, pow_succ]; omega
      · rw [pow_succ]; omega

theorem bitLength_spec (n : Nat) (hn : n ≠ 0) :
    ∃ k : Nat, bitLength n = k + 1 ∧ 2 ^ k ≤ n ∧ n < 2 ^ (k + 1) := by
  obtain ⟨h1, h2, h3⟩ := bitLengthAux_spec n n le_rfl hn
  refine ⟨bitLength n - 1, ?_, h1, ?_⟩
  · unfold bitLength; omega
  · have : bitLength n - 1 + 1 = bitLengthAux n n := by unfold bitLength; omega
    rw [this]; exact h2

theorem floorLog2_spec (q : ℚ) (hq : q ≠ 0) :
    (2 : ℚ) ^ floorLog2 q ≤ |q| ∧ |q| < (2 : ℚ) ^ (floorLog2 q + 1) := by
  have hn : q.num.natAbs ≠ 0 := by
    simpa using (Rat.num_ne_zero.mpr hq)
  obtain ⟨a, ha, a1, a2⟩ := bitLength_spec _ hn
  obtain ⟨b, hb, b1, b2⟩ := bitLength_spec _ q.den_nz
  have habs : |q| = (q.num.natAbs : ℚ) / (q.den : ℚ) := by
    rw [Rat.abs_def, Rat.divInt_eq_div]; simp [Nat.cast_natAbs]
  have hD : (0 : ℚ) < q.den := by exact_mod_cast q.den_pos
  have A1 : (2 : ℚ) ^ a ≤ (q.num.natAbs : ℚ) := by exact_mod_cast a1
  have A2 : (q.num.natAbs : ℚ) < 2 ^ (a + 1) := by exact_mod_cast a2
  have B1 : (2 : ℚ) ^ b ≤ (q.den : ℚ) := by exact_mod_cast b1
  have B2 : (q.den : ℚ) < 2 ^ (b + 1) := by exact_mod_cast b2
  have he : ((bitLength q.num.natAbs : Int) - (bitLength q.den : Int)) = (a : Int) - b := by
    rw [ha, hb]; push_cast; ring
  have hpa : (0 : ℚ) < 2 ^ a := by positivity
  have hpb : (0 : ℚ) < 2 ^ b := by positivity
  have z0 : (2 : ℚ) ^ ((a : Int) - b) = 2 ^ a / 2 ^ b := by
    rw [zpow_sub₀ (by norm_num), zpow_natCast, zpow_natCast]
  have z1 : (2 : ℚ) ^ ((a : Int) - b + 1) = 2 * 2 ^ a / 2 ^ b := by
    rw [zpow_add₀ (by norm_num), z0]; ring
  have z2 : (2 : ℚ) ^ ((a : Int) - b - 1) = 2 ^ a / (2 * 2 ^ b) := by
    rw [zpow_sub₀ (by norm_num), z0]; field_simp; ring
  have up : |q| < 2 * 2 ^ a / 2 ^ b := by
    rw [habs, div_lt_div_iff₀ hD hpb]
    rw [pow_succ] at A2
    nlinarith
  have lo : 2 ^ a / (2 * 2 ^ b) ≤ |q| := by
    rw [habs, div_le_div_iff₀ (by positivity) hD]
    rw [pow_succ] at B2
    nlinarith
  unfold floorLog2
  simp only [he]
  split_ifs with h
  · exact ⟨h, by rw [z1]; exact up⟩
  · refine ⟨by rw [z2]; exact lo, ?_⟩
    have : (a : Int) - b - 1 + 1 = (a : Int) - b := by ring
    rw [this]; exact lt_of_not_le h

theorem floorLog2_unique (q : ℚ) (e : Int) (h1 : (2 : ℚ) ^ e ≤ |q|)
    (h2 : |q| < (2 : ℚ) ^ (e + 1)) : floorLog2 q = e := by
  have hq : q ≠ 0 := by
    rintro rfl
    have : (0 : ℚ) < 2 ^ e := by positivity
    simp at h1; linarith
  obtain ⟨s1, s2⟩ := floorLog2_spec q hq
  have l1 : (2 : ℚ) ^ e < 2 ^ (floorLog2 q + 1) := lt_of_le_of_lt h1 s2
  have l2 : (2 : ℚ) ^ floorLog2 q < 2 ^ (e + 1) := lt_of_le_of_lt s1 h2
  rw [zpow_lt_zpow_iff_right₀ (by norm_num)] at l1 l2
  omega

theorem roundHalfEven_intCast (z : Int) : roundHalfEven (z : ℚ) = z := by
  simp [roundHalfEven]

theorem roundHalfEven_cases (x : ℚ) :
    roundHalfEven x = ⌊x⌋ ∧ x - ⌊x⌋ ≤ 1 / 2 ∨ roundHalfEven x = ⌊x⌋ + 1 ∧ 1 / 2 ≤ x - ⌊x⌋ := by
  unfold roundHalfEven
  simp only
  split_ifs with h1 h2 h3
  · left; exact ⟨rfl, le_of_lt h1⟩
  · right; exact ⟨rfl, le_of_lt h2⟩
  · left; exact ⟨rfl, not_lt.mp h2⟩
  · right; exact ⟨rfl, not_lt.mp h1⟩

theorem roundHalfEven_error (x : ℚ) : |(roundHalfEven x : ℚ) - x| ≤ 1 / 2 := by
  have h0 := Int.floor_le x
  have h1 := Int.lt_floor_add_one x
  rw [abs_le]
  rcases roundHalfEven_cases x with ⟨h, hr⟩ | ⟨h, hr⟩ <;> rw [h] <;> push_cast <;>
    constructor <;> linarith

theorem roundHalfEven_mono {x y : ℚ} (h : x ≤ y) : roundHalfEven x ≤ roundHalfEven y := by
  have hf : ⌊x⌋ ≤ ⌊y⌋ := Int.floor_mono h
  rcases lt_or_eq_of_le hf with hlt | heq
  · have a : roundHalfEven x ≤ ⌊x⌋ + 1 := by
      rcases roundHalfEven_cases x with ⟨h, _⟩ | ⟨h, _⟩ <;> omega
    have b : ⌊y⌋ ≤ roundHalfEven y := by
      rcases roundHalfEven_cases y with ⟨h, _⟩ | ⟨h, _⟩ <;> omega
    omega
  · unfold roundHalfEven
    simp only [heq]
    split_ifs <;> first | omega | (exfalso; linarith)

theorem roundToFloat64_of_binade (q : ℚ) (e : Int) (h1 : (2 : ℚ) ^ e ≤ |q|)
    (h2 : |q| < (2 : ℚ) ^ (e + 1)) (he : -1022 ≤ e) :
    roundToFloat64 q = (roundHalfEven (q / 2 ^ (e - 52)) : ℚ) * 2 ^ (e - 52) := by
  have hq : q ≠ 0 := by
    rintro rfl
    have : (0 : ℚ) < 2 ^ e := by positivity
    simp at h1; linarith
  unfold roundToFloat64
  rw [if_neg hq, floorLog2_unique q e h1 h2, max_eq_left he]

theorem floorLog2_normal (q : ℚ) (h : (2 : ℚ) ^ (-1022 : Int) ≤ |q|) :
    -1022 ≤ floorLog2 q ∧ q ≠ 0 := by
  have hq : q ≠ 0 := by
    rintro rfl
    have : (0 : ℚ) < 2 ^ (-1022 : Int) := by positivity
    simp at h; linarith
  obtain ⟨_, s2⟩ := floorLog2_spec q hq
  have l : (2 : ℚ) ^ (-1022 : Int) < 2 ^ (floorLog2 q + 1) := lt_of_le_of_lt h s2
  rw [zpow_lt_zpow_iff_right₀ (by norm_num)] at l
  exact ⟨by omega, hq⟩

theorem roundToFloat64_error (q : ℚ) (h : (2 : ℚ) ^ (-1022 : Int) ≤ |q|) :
    |roundToFloat64 q - q| ≤ |q| * 2 ^ (-53 : Int) := by
  obtain ⟨he, hq⟩ := floorLog2_normal q h
  obtain ⟨s1, s2⟩ := floorLog2_spec q hq
  rw [roundToFloat64_of_binade q _ s1 s2 he]
  set e := floorLog2 q
  have hu : (0 : ℚ) < 2 ^ (e - 52) := by positivity
  have key : (roundHalfEven (q / 2 ^ (e - 52)) : ℚ) * 2 ^ (e - 52) - q
      = ((roundHalfEven (q / 2 ^ (e - 52)) : ℚ) - q / 2 ^ (e - 52)) * 2 ^ (e - 52) := by
    field_simp
  rw [key, abs_mul, abs_of_pos hu]
  have herr := roundHalfEven_error (q / 2 ^ (e - 52))
  have hz : (2 : ℚ) ^ (e - 52) = 2 ^ e * 2 ^ (-53 : Int) * 2 := by
    rw [show e - 52 = e + (-53) + 1 by ring, zpow_add₀ (by norm_num), zpow_add₀ (by norm_num)]
    norm_num
  have hp : (0 : ℚ) < 2 ^ (-53 : Int) := by positivity
  calc |(roundHalfEven (q / 2 ^ (e - 52)) : ℚ) - q / 2 ^ (e - 52)| * 2 ^ (e - 52)
      ≤ 1 / 2 * 2 ^ (e - 52) := by
        exact mul_le_mul_of_nonneg_right herr (le_of_lt hu)
    _ = 2 ^ e * 2 ^ (-53 : Int) := by rw [hz]; ring
    _ ≤ |q| * 2 ^ (-53 : Int) := mul_le_mul_of_nonneg_right s1 (le_of_lt hp)

theorem roundToFloat64_binade_bounds (q : ℚ) (e : Int) (hpos : 0 < q) (h1 : (2 : ℚ) ^ e ≤ q)
    (h2 : q < (2 : ℚ) ^ (e + 1)) (he : -1022 ≤ e) :
    (2 : ℚ) ^ e ≤ roundToFloat64 q ∧ roundToFloat64 q ≤ (2 : ℚ) ^ (e + 1) := by
  have habs : |q| = q := abs_of_pos hpos
  rw [roundToFloat64_of_binade q e (by rw [habs]; exact h1) (by rw [habs]; exact h2) he]
  have hu : (0 : ℚ) < 2 ^ (e - 52) := by positivity
  have e1 : (2 : ℚ) ^ e = ((2 ^ 52 : Int) : ℚ) * 2 ^ (e - 52) := by
    have : (2 : ℚ) ^ e = 2 ^ (52 : Int) * 2 ^ (e - 52) := by
      rw [← zpow_add₀ (by norm_num)]; congr 1; ring
    rw [this]; norm_num
  have e2 : (2 : ℚ) ^ (e + 1) = ((2 ^ 53 : Int) : ℚ) * 2 ^ (e - 52) := by
    have : (2 : ℚ) ^ (e + 1) = 2 ^ (53 : Int) * 2 ^ (e - 52) := by
      rw [← zpow_add₀ (by norm_num)]; congr 1; ring
    rw [this]; norm_num
  have l1 : ((2 ^ 52 : Int) : ℚ) ≤ q / 2 ^ (e - 52) := by
    rw [le_div_iff₀ hu, ← e1]; exact h1
  have l2 : q / 2 ^ (e - 52) ≤ ((2 ^ 53 : Int) : ℚ) := by
    rw [div_le_iff₀ hu, ← e2]; exact le_of_lt h2
  have m1 := roundHalfEven_mono l1
  have m2 := roundHalfEven_mono l2
  rw [roundHalfEven_intCast] at m1 m2
  constructor
  · rw [e1]; exact mul_le_mul_of_nonneg_right (by exact_mod_cast m1) (le_of_lt hu)
  · rw [e2]; exact mul_le_mul_of_nonneg_right (by exact_mod_cast m2) (le_of_lt hu)

theorem roundToFloat64_mono {x y : ℚ} (hx : (2 : ℚ) ^ (-1022 : Int) ≤ x) (h : x ≤ y) :
    roundToFloat64 x ≤ roundToFloat64 y := by
  have hx0 : 0 < x := lt_of_lt_of_le (by positivity) hx
  have hy0 : 0 < y := lt_of_lt_of_le hx0 h
  have ax : |x| = x := abs_of_pos hx0
  have ay : |y| = y := abs_of_pos hy0
  obtain ⟨hex, hxne⟩ := floorLog2_normal x (by rw [ax]; exact hx)
  obtain ⟨hey, hyne⟩ := floorLog2_normal y (by rw [ay]; exact le_trans hx h)
  obtain ⟨x1, x2⟩ := floorLog2_spec x hxne
  obtain ⟨y1, y2⟩ := floorLog2_spec y hyne
  rw [ax] at x1 x2
  rw [ay] at y1 y2
  have hle : (2 : ℚ) ^ floorLog2 x < 2 ^ (floorLog2 y + 1) :=
    lt_of_le_of_lt x1 (lt_of_le_of_lt h y2)
  rw [zpow_lt_zpow_iff_right₀ (by norm_num)] at hle
  rcases lt_or_eq_of_le (show floorLog2 x ≤ floorLog2 y by omega) with hlt | heq
  · have bx := (roundToFloat64_binade_bounds x _ hx0 x1 x2 hex).2
    have bY := (roundToFloat64_binade_bounds y _ hy0 y1 y2 hey).1
    have : (2 : ℚ) ^ (floorLog2 x + 1) ≤ 2 ^ floorLog2 y :=
      (zpow_le_zpow_iff_right₀ (by norm_num)).mpr (by omega)
    linarith
  · rw [roundToFloat64_of_binade x _ (by rw [ax]; exact x1) (by rw [ax]; exact x2) hex,
      roundToFloat64_of_binade y _ (by rw [ay]; exact y1) (by rw [ay]; exact y2) hey, heq]
    have hu : (0 : ℚ) < 2 ^ (floorLog2 y - 52) := by positivity
    have : x / 2 ^ (floorLog2 y - 52) ≤ y / 2 ^ (floorLog2 y - 52) :=
      div_le_div_of_nonneg_right h (le_of_lt hu)
    have m := roundHalfEven_mono this
    exact mul_le_mul_of_nonneg_right (by exact_mod_cast m) (le_of_lt hu)

theorem roundToFloat64_nonpos {q : ℚ} (h : q ≤ 0) : roundToFloat64 q ≤ 0 := by
  unfold roundToFloat64
  split_ifs with h0
  · exact le_rfl
  · simp only
    set u : ℚ := 2 ^ (max (floorLog2 q) (-1022) - 52) with hu
    have up : 0 < u := by positivity
    have : q / u ≤ ((0 : Int) : ℚ) := by
      simpa using div_nonpos_of_nonpos_of_nonneg h (le_of_lt up)
    have m := roundHalfEven_mono this
    rw [roundHalfEven_intCast] at m
    have : (roundHalfEven (q / u) : ℚ) ≤ 0 := by exact_mod_cast m
    exact mul_nonpos_of_nonpos_of_nonneg this (le_of_lt up)

theorem roundToFloat64_nonneg {q : ℚ} (h : 0 ≤ q) : 0 ≤ roundToFloat64 q := by
  unfold roundToFloat64
  split_ifs with h0
  · exact le_rfl
  · simp only
    set u : ℚ := 2 ^ (max (floorLog2 q) (-1022) - 52) with hu
    have up : 0 < u := by positivity
    have : ((0 : Int) : ℚ) ≤ q / u := by
      simpa using div_nonneg h (le_of_lt up)
    have m := roundHalfEven_mono this
    rw [roundHalfEven_intCast] at m
    have : (0 : ℚ) ≤ (roundHalfEven (q / u) : ℚ) := by exact_mod_cast m
    exact mul_nonneg this (le_of_lt up)

theorem roundToFloat64_intCast (z : Int) (h : |z| ≤ 2 ^ 53) : roundToFloat64 (z : ℚ) = z := by
  rcases eq_or_ne z 0 with rfl | hz
  · simp [roundToFloat64]
  rcases eq_or_lt_of_le h with heq | hlt
  · have : z = 2 ^ 53 ∨ z = -2 ^ 53 := by
      rcases abs_cases z with ⟨h1, _⟩ | ⟨h1, _⟩ <;> omega
    rcases this with rfl | rfl <;> decide!
  · have hq : (z : ℚ) ≠ 0 := by exact_mod_cast hz
    obtain ⟨s1, s2⟩ := floorLog2_spec (z : ℚ) hq
    set e := floorLog2 (z : ℚ) with he
    have habs : |(z : ℚ)| = ((|z| : Int) : ℚ) := by simp
    have a1 : (1 : ℚ) ≤ |(z : ℚ)| := by
      rw [habs]; exact_mod_cast Int.one_le_abs hz
    have a2 : |(z : ℚ)| < 2 ^ (53 : Int) := by
      rw [habs]
      have : ((|z| : Int) : ℚ) < ((2 ^ 53 : Int) : ℚ) := by exact_mod_cast hlt
      norm_num at this ⊢
      exact this
    have l1 : (2 : ℚ) ^ (0 : Int) < 2 ^ (e + 1) := by
      simpa using lt_of_le_of_lt a1 s2
    have l2 : (2 : ℚ) ^ e < 2 ^ (53 : Int) := lt_of_le_of_lt s1 a2
    rw [zpow_lt_zpow_iff_right₀ (by norm_num)] at l1 l2
    rw [roundToFloat64_of_binade (z : ℚ) e s1 s2 (by omega)]
    obtain ⟨k, hk⟩ : ∃ k : Nat, e - 52 = -(k : Int) := ⟨(52 - e).toNat, by omega⟩
    rw [hk, zpow_neg, zpow_natCast]
    have hp : (0 : ℚ) < 2 ^ k := by positivity
    have : (z : ℚ) / (2 ^ k)⁻¹ = ((z * 2 ^ k : Int) : ℚ) := by
      push_cast; field_simp
    rw [this, roundHalfEven_intCast]
    push_cast; field_simp

/-! ## Sizes: `FormatCacheSize` -/

theorem not_suffix_append (front s t : GoString) (h1 : ¬ s <:+ t) (h2 : ¬ t <:+ s) :
    ¬ s <:+ front ++ t := by
  intro h
  have ht : t <:+ front ++ t := List.suffix_append front t
  rcases le_total s.length t.length with hl | hl
  · exact h1 (List.suffix_of_suffix_length_le h ht hl)
  · exact h2 (List.suffix_of_suffix_length_le ht h hl)

/-- C6. The documented values: 500 bytes, 2048 bytes, 5 MiB and 3 GiB are
rendered as "500.00 B", "2.00 KB", "5.00 MB" and "3.00 GB". -/
theorem FormatCacheSize_documented :
    FormatCacheSize (.finite 500) = str "500.00 B" ∧
      FormatCacheSize (.finite 2048) = str "2.00 KB" ∧
      FormatCacheSize (.finite (5 * 1024 * 1024)) = str "5.00 MB" ∧
      FormatCacheSize (.finite (3 * 1024 * 1024 * 1024)) = str "3.00 GB" := by
  decide!

theorem FormatCacheSize_finite (size : ℚ) :
    FormatCacheSize (.finite size) =
      if size < 1024 then fmtFixed2 size ++ str " B"
      else if size < 1024 ^ 2 then fmtFixed2 (float64Div size 1024) ++ str " KB"
      else if size < 1024 ^ 3 then fmtFixed2 (float64Div size (1024 ^ 2)) ++ str " MB"
      else fmtFixed2 (float64Div size (1024 ^ 3)) ++ str " GB" := by
  have hM : ((MB_IN_BYTES : Nat) : ℚ) = 1024 ^ 2 := by norm_num [MB_IN_BYTES]
  have hG : ((GB_IN_BYTES : Nat) : ℚ) = 1024 ^ 3 := by norm_num [GB_IN_BYTES]
  simp only [FormatCacheSize, Float64.lt, Float64.div, fmtFloat2, hM, hG, decide_eq_true_eq]

/-- C9 (amended). The unit is decided by thresholds on the byte count alone: for
every size that is a number (finite, or an infinity) the output ends in " B"
exactly when `size < 1024`, in " KB" exactly when `1024 ≤ size < 1024^2`, in
" MB" exactly when `1024^2 ≤ size < 1024^3` and in " GB" exactly when
`1024^3 ≤ size`; the boundaries 1024, 1024^2 and 1024^3 give "1.00 KB",
"1.00 MB" and "1.00 GB", and 1024^4 is still rendered in GB. -/
theorem FormatCacheSize_unit (size : ℚ) :
    (str " B" <:+ FormatCacheSize (.finite size) ↔ size < 1024) ∧
      (str " KB" <:+ FormatCacheSize (.finite size) ↔ 1024 ≤ size ∧ size < 1024 ^ 2) ∧
      (str " MB" <:+ FormatCacheSize (.finite size) ↔ 1024 ^ 2 ≤ size ∧ size < 1024 ^ 3) ∧
      (str " GB" <:+ FormatCacheSize (.finite size) ↔ 1024 ^ 3 ≤ size) ∧
      FormatCacheSize (.finite 1024) = str "1.00 KB" ∧
      FormatCacheSize (.finite (1024 ^ 2)) = str "1.00 MB" ∧
      FormatCacheSize (.finite (1024 ^ 3)) = str "1.00 GB" ∧
      FormatCacheSize (.finite (1024 ^ 4)) = str "1024.00 GB" ∧
      FormatCacheSize .posInf = str "+Inf GB" ∧ Float64.ge .posInf (1024 ^ 3) = true ∧
      FormatCacheSize .negInf = str "-Inf B" ∧ Float64.lt .negInf 1024 = true := by
  have hlt1 : (1024 : ℚ) < 1024 ^ 2 := by norm_num
  have hlt2 : (1024 : ℚ) ^ 2 < 1024 ^ 3 := by norm_num
  refine ⟨?_, ?_, ?_, ?_, by decide!, by decide!, by decide!, by decide!, by decide!,
    by decide!, by decide!, by decide!⟩
  all_goals
    rw [FormatCacheSize_finite]
    split_ifs with c1 c2 c3
  · exact ⟨fun _ => c1, fun _ => List.suffix_append _ _⟩
  · exact ⟨fun h => absurd h (not_suffix_append _ _ _ (by decide) (by decide)),
      fun h => absurd h c1⟩
  · exact ⟨fun h => absurd h (not_suffix_append _ _ _ (by decide) (by decide)),
      fun h => absurd h c1⟩
  · exact ⟨fun h => absurd h (not_suffix_append _ _ _ (by decide) (by decide)),
      fun h => absurd h c1⟩
  · exact ⟨fun h => absurd h (not_suffix_append _ _ _ (by decide) (by decide)),
      fun h => absurd c1 (by linarith [h.1])⟩
  · exact ⟨fun _ => ⟨by linarith, c2⟩, fun _ => List.suffix_append _ _⟩
  · exact ⟨fun h => absurd h (not_suffix_append _ _ _ (by decide) (by decide)),
      fun h => absurd h.2 c2⟩
  · exact ⟨fun h => absurd h (not_suffix_append _ _ _ (by decide) (by decide)),
      fun h => absurd h.2 c2⟩
  · exact ⟨fun h => absurd h (not_suffix_append _ _ _ (by decide) (by decide)),
      fun h => absurd c1 (by linarith [h.1])⟩
  · exact ⟨fun h => absurd h (not_suffix_append _ _ _ (by decide) (by decide)),
      fun h => absurd c2 (by linarith [h.1])⟩
  · exact ⟨fun _ => ⟨by linarith, c3⟩, fun _ => List.suffix_append _ _⟩
  · exact ⟨fun h => absurd h (not_suffix_append _ _ _ (by decide) (by decide)),
      fun h => absurd h.2 c3⟩
  · exact ⟨fun h => absurd h (not_suffix_append _ _ _ (by decide) (by decide)),
      fun h => absurd c1 (by linarith)⟩
  · exact ⟨fun h => absurd h (not_suffix_append _ _ _ (by decide) (by decide)),
      fun h => absurd c2 (by linarith)⟩
  · exact ⟨fun h => absurd h (not_suffix_append _ _ _ (by decide) (by decide)),
      fun h => absurd c3 (by linarith)⟩
  · exact ⟨fun _ => by linarith, fun _ => List.suffix_append _ _⟩

/-- C9 (as stated) fails on NaN: every comparison of lines 38-46 is false, the
function falls through to the last branch and prints "NaN GB", although
`NaN >= 1024^3` is false. -/
theorem FormatCacheSize_unit_counterexample :
    FormatCacheSize .nan = str "NaN GB" ∧ str " GB" <:+ FormatCacheSize .nan ∧
      Float64.ge .nan (1024 ^ 3) = false := by
  decide!

/-! ## Layout: the width of the table -/

theorem float64ToInt_intCast (z : Int) (h1 : -2 ^ 63 ≤ z) (h2 : z < 2 ^ 63) :
    float64ToInt (z : ℚ) = some z := by
  unfold float64ToInt
  simp only [Int.floor_intCast, Int.ceil_intCast, ite_self]
  rw [if_pos ⟨h1, h2⟩]

theorem float64ToInt_ge {f : ℚ} {w : Int} (lo : Int) (hlo : 0 ≤ lo) (hf : (lo : ℚ) ≤ f)
    (h : float64ToInt f = some w) : lo ≤ w := by
  unfold float64ToInt at h
  have h0 : (0 : ℚ) ≤ f := le_trans (by exact_mod_cast hlo) hf
  simp only [if_pos h0] at h
  split_ifs at h
  have : w = ⌊f⌋ := by simpa using h.symm
  rw [this]
  exact Int.le_floor.mpr hf

theorem float64ToInt_of_bounds {f : ℚ} (h0 : 0 ≤ f) (h1 : f < 2 ^ 63) :
    float64ToInt f = some ⌊f⌋ := by
  unfold float64ToInt
  simp only [if_pos h0]
  have a : (0 : Int) ≤ ⌊f⌋ := Int.floor_nonneg.mpr h0
  have b : ⌊f⌋ < 2 ^ 63 := by
    rw [Int.floor_lt]; push_cast; exact h1
  rw [if_pos ⟨by omega, b⟩]

theorem intToFloat64_exact (t : Int) (h : |t| ≤ 2 ^ 53) : intToFloat64 t = (t : ℚ) :=
  roundToFloat64_intCast t h

theorem layoutWidth_exact (t : Int) (h : |t| ≤ 2 ^ 53) : layoutWidth t = some (max t 100) := by
  unfold layoutWidth mathMax
  rw [intToFloat64_exact t h]
  have : max (t : ℚ) 100 = ((max t 100 : Int) : ℚ) := by push_cast; rfl
  rw [this]
  have hb := abs_le.mp h
  exact float64ToInt_intCast _ (by omega) (by omega)

theorem intToFloat64_le_of_lt_hundred (t : Int) (h : t < 100) : intToFloat64 t ≤ 100 := by
  rcases le_or_lt t 0 with h0 | h0
  · have : ((t : Int) : ℚ) ≤ 0 := by exact_mod_cast h0
    exact le_trans (roundToFloat64_nonpos this) (by norm_num)
  · rw [intToFloat64_exact t (by rw [abs_of_pos h0]; omega)]
    exact_mod_cast le_of_lt h

theorem layoutWidth_small (t : Int) (h : t < 100) : layoutWidth t = some 100 := by
  unfold layoutWidth mathMax
  rw [max_eq_right (intToFloat64_le_of_lt_hundred t h)]
  exact float64ToInt_intCast 100 (by norm_num) (by norm_num)

theorem layoutWidth_ge (t w : Int) (h : layoutWidth t = some w) : 100 ≤ w := by
  unfold layoutWidth mathMax at h
  exact float64ToInt_ge 100 (by norm_num) (by push_cast; exact le_max_right _ _) h

theorem intToFloat64_le_top (t : Int) (h : t < 2 ^ 63 - 512) :
    intToFloat64 t ≤ 2 ^ 63 - 1024 := by
  rcases le_or_lt t 0 with h0 | h0
  · have : ((t : Int) : ℚ) ≤ 0 := by exact_mod_cast h0
    exact le_trans (roundToFloat64_nonpos this) (by norm_num)
  · have h1 : (2 : ℚ) ^ (-1022 : Int) ≤ (t : ℚ) := by
      have a : (2 : ℚ) ^ (-1022 : Int) ≤ 1 := zpow_le_one_of_nonpos₀ (by norm_num) (by norm_num)
      have b : (1 : ℚ) ≤ (t : ℚ) := by exact_mod_cast h0
      linarith
    have h2 : (t : ℚ) ≤ ((2 ^ 63 - 513 : Int) : ℚ) := by exact_mod_cast (by omega : t ≤ 2 ^ 63 - 513)
    have m := roundToFloat64_mono h1 h2
    have e : roundToFloat64 ((2 ^ 63 - 513 : Int) : ℚ) = 2 ^ 63 - 1024 := by decide!
    unfold intToFloat64
    linarith

theorem layoutWidth_defined (t : Int) (h : t < 2 ^ 63 - 512) :
    ∃ w, layoutWidth t = some w ∧ 100 ≤ w ∧ w ≤ 2 ^ 63 - 1024 := by
  have hb : mathMax (intToFloat64 t) 100 ≤ 2 ^ 63 - 1024 :=
    max_le (intToFloat64_le_top t h) (by norm_num)
  have h100 : (100 : ℚ) ≤ mathMax (intToFloat64 t) 100 := le_max_right _ _
  have hs : layoutWidth t = some ⌊mathMax (intToFloat64 t) 100⌋ :=
    float64ToInt_of_bounds (by linarith) (by linarith)
  refine ⟨_, hs, layoutWidth_ge t _ hs, ?_⟩
  have hq : (⌊mathMax (intToFloat64 t) 100⌋ : ℚ) ≤ 2 ^ 63 - 1024 :=
    le_trans (Int.floor_le _) hb
  exact_mod_cast hq

theorem layout_small (t : Int) (h : t < 100) :
    layout t = some { width := 100, keyWidth := 42, sizeWidth := 15, refWidth := 13,
                      timeWidth := 20 } := by
  unfold layout
  rw [layoutWidth_small t h]
  decide!

/-- The layout width of line 55 on the widths where the `float64` round trip is
exact or harmless: it is `max(detected, 100)` for every detected width of
magnitude at most `2^53`, it is 100 whenever the detected width is below 100
(whatever error came with it), and every width it produces is at least 100. -/
theorem layoutWidth_spec (t : Int) :
    (|t| ≤ 2 ^ 53 → layoutWidth t = some (max t 100)) ∧
      (t < 100 → layoutWidth t = some 100) ∧
      (t < 2 ^ 63 - 512 → ∃ w, layoutWidth t = some w ∧ 100 ≤ w) ∧
      (∀ w, layoutWidth t = some w → 100 ≤ w) ∧
      (∀ stdout : Terminal, (getTerminalWidth stdout).1 = t → t < 100 →
        ∀ (fromNow : GoString → GoString) (caches : List ActionsCache),
          PrettyPrintCacheList fromNow stdout caches =
            printRows fromNow { width := 100, keyWidth := 42, sizeWidth := 15, refWidth := 13,
                                timeWidth := 20 } caches) := by
  refine ⟨layoutWidth_exact t, layoutWidth_small t, ?_, layoutWidth_ge t, ?_⟩
  · intro h
    obtain ⟨w, hw, h1, _⟩ := layoutWidth_defined t h
    exact ⟨w, hw, h1⟩
  · intro stdout hdet hsmall fromNow caches
    unfold PrettyPrintCacheList
    rw [hdet, layout_small t hsmall]
    rfl

theorem layoutWidth_spec_witness :
    layoutWidth 0 = some 100 ∧ layoutWidth (-1) = some 100 ∧ layoutWidth 80 = some 100 ∧
      layoutWidth 237 = some 237 :=
  ⟨(layoutWidth_spec 0).2.1 (by norm_num), (layoutWidth_spec (-1)).2.1 (by norm_num),
   (layoutWidth_spec 80).2.1 (by norm_num),
   ((layoutWidth_spec 237).1 (by norm_num)).trans (by decide)⟩

theorem getFormattedCacheInfo_length (fromNow : GoString → GoString) (cache : ActionsCache)
    (keyWidth sizeWidth refWidth timeWidth : Int) (hk : 3 ≤ keyWidth) (hs : 3 ≤ sizeWidth)
    (hr : 3 ≤ refWidth) (ht : 3 ≤ timeWidth) :
    ∃ row, getFormattedCacheInfo fromNow cache keyWidth sizeWidth refWidth timeWidth = some row ∧
      (row.length : Int) = keyWidth + sizeWidth + refWidth + timeWidth + 3 := by
  obtain ⟨key, ek, lk⟩ := trimOrPad_length cache.Key keyWidth hk
  obtain ⟨size, es, ls⟩ := trimOrPad_length
    (str "[" ++ FormatCacheSize cache.SizeInBytes ++ str "]") sizeWidth hs
  obtain ⟨ref, er, lr⟩ := trimOrPad_length cache.Ref refWidth hr
  obtain ⟨time, et, lt⟩ := trimOrPad_length
    (lastAccessedTime fromNow cache.LastAccessedAt) timeWidth ht
  refine ⟨key ++ str " " ++ size ++ str " " ++ ref ++ str " " ++ time, ?_, ?_⟩
  · simp only [getFormattedCacheInfo, ek, es, er, et, Option.some_bind]
  · simp only [List.length_append, str_space, List.length_singleton]
    push_cast
    omega

theorem exact_widths_bounds (w : Int) (hw : 100 ≤ w) :
    42 ≤ ⌊(65 / 100 : ℚ) * ((w : ℚ) - 35)⌋ ∧ 13 ≤ ⌊(20 / 100 : ℚ) * ((w : ℚ) - 35)⌋ ∧
      ⌊(65 / 100 : ℚ) * ((w : ℚ) - 35)⌋ + 15 + ⌊(20 / 100 : ℚ) * ((w : ℚ) - 35)⌋ + 20 + 3 ≤ w := by
  have hq : (100 : ℚ) ≤ (w : ℚ) := by exact_mod_cast hw
  have k1 := Int.floor_le ((65 / 100 : ℚ) * ((w : ℚ) - 35))
  have r1 := Int.floor_le ((20 / 100 : ℚ) * ((w : ℚ) - 35))
  refine ⟨?_, ?_, ?_⟩
  · rw [Int.le_floor]; push_cast; linarith
  · rw [Int.le_floor]; push_cast; linarith
  · have : ((⌊(65 / 100 : ℚ) * ((w : ℚ) - 35)⌋ + 15 + ⌊(20 / 100 : ℚ) * ((w : ℚ) - 35)⌋
        + 20 + 3 : Int) : ℚ) ≤ (w : ℚ) := by
      push_cast; linarith
    exact_mod_cast this

theorem two_zpow_neg53_le : (2 : ℚ) ^ (-53 : Int) ≤ 1 / 1000 := by
  rw [zpow_neg]
  norm_num

theorem normal_of_one_le {q : ℚ} (h : 1 ≤ q) : (2 : ℚ) ^ (-1022 : Int) ≤ q :=
  le_trans (zpow_le_one_of_nonpos₀ (by norm_num) (by norm_num)) h

theorem roundToFloat64_le_of_one_le {q : ℚ} (h : 1 ≤ q) :
    roundToFloat64 q ≤ q * (1001 / 1000) := by
  have habs : |q| = q := abs_of_pos (by linarith)
  have e := roundToFloat64_error q (by rw [habs]; exact normal_of_one_le h)
  rw [habs] at e
  have h1 := (abs_le.mp e).2
  have h2 : q * 2 ^ (-53 : Int) ≤ q * (1 / 1000) :=
    mul_le_mul_of_nonneg_left two_zpow_neg53_le (by linarith)
  generalize (2 : ℚ) ^ (-53 : Int) = v at h1 h2
  linarith

theorem float64_065 : roundToFloat64 (65 / 100) = 5854679515581645 / 9007199254740992 := by
  decide!

theorem float64_020 : roundToFloat64 (20 / 100) = 7205759403792794 / 36028797018963968 := by
  decide!

theorem float64Mul_065_65 :
    roundToFloat64 (5854679515581645 / 9007199254740992 * 65) = 169 / 4 := by
  decide!

theorem float64Mul_020_65 :
    roundToFloat64 (7205759403792794 / 36028797018963968 * 65) = 13 := by
  decide!

theorem intToFloat64_bounds (n : Int) (hn : 65 ≤ n) :
    65 ≤ intToFloat64 n ∧ intToFloat64 n ≤ (n : ℚ) * (1001 / 1000) := by
  have h65 : (65 : ℚ) ≤ (n : ℚ) := by exact_mod_cast hn
  constructor
  · have m := roundToFloat64_mono (normal_of_one_le (by norm_num : (1 : ℚ) ≤ 65)) h65
    have e : roundToFloat64 ((65 : Int) : ℚ) = ((65 : Int) : ℚ) :=
      roundToFloat64_intCast 65 (by norm_num)
    unfold intToFloat64
    norm_num at e
    linarith
  · exact roundToFloat64_le_of_one_le (by linarith : (1 : ℚ) ≤ (n : ℚ))

theorem column_width (c : ℚ) (n lo : Int) (hc0 : 1 ≤ c * 65) (hc1 : c ≤ 3 / 4) (hn : 65 ≤ n)
    (hn2 : n < 2 ^ 63) (hlo0 : 0 ≤ lo) (hlo : (lo : ℚ) ≤ roundToFloat64 (c * 65)) :
    ∃ k, float64ToInt (mathFloor (float64Mul c (intToFloat64 n))) = some k ∧ lo ≤ k ∧
      (k : ℚ) ≤ c * (n : ℚ) * (1001 / 1000) * (1001 / 1000) := by
  obtain ⟨f1, f2⟩ := intToFloat64_bounds n hn
  have hcpos : 0 < c := by linarith
  have hx1 : c * 65 ≤ c * intToFloat64 n := mul_le_mul_of_nonneg_left f1 (le_of_lt hcpos)
  have hx2 : c * intToFloat64 n ≤ c * ((n : ℚ) * (1001 / 1000)) :=
    mul_le_mul_of_nonneg_left f2 (le_of_lt hcpos)
  have m := roundToFloat64_mono (normal_of_one_le hc0) hx1
  have b := roundToFloat64_le_of_one_le (le_trans hc0 hx1)
  have hP : roundToFloat64 (c * intToFloat64 n) ≤ c * (n : ℚ) * (1001 / 1000) * (1001 / 1000) := by
    linarith
  have hnq : (n : ℚ) < 2 ^ 63 := by exact_mod_cast hn2
  have hn0 : (0 : ℚ) ≤ (n : ℚ) := by
    have : (65 : ℚ) ≤ (n : ℚ) := by exact_mod_cast hn
    linarith
  have hlt : roundToFloat64 (c * intToFloat64 n) < 2 ^ 63 := by
    have : c * (n : ℚ) ≤ 3 / 4 * (n : ℚ) := mul_le_mul_of_nonneg_right hc1 hn0
    linarith
  have hfl : ⌊roundToFloat64 (c * intToFloat64 n)⌋ < 2 ^ 63 := by
    rw [Int.floor_lt]; push_cast; exact hlt
  have hge : lo ≤ ⌊roundToFloat64 (c * intToFloat64 n)⌋ := Int.le_floor.mpr (by linarith)
  refine ⟨⌊roundToFloat64 (c * intToFloat64 n)⌋, ?_, hge, ?_⟩
  · unfold mathFloor float64Mul
    exact float64ToInt_intCast _ (by omega) hfl
  · exact le_trans (Int.floor_le _) hP

theorem layout_defined (t : Int) (h : t < 2 ^ 63 - 512) :
    ∃ l, layout t = some l ∧ layoutWidth t = some l.width ∧ 100 ≤ l.width ∧
      l.sizeWidth = 15 ∧ l.timeWidth = 20 ∧ 42 ≤ l.keyWidth ∧ 13 ≤ l.refWidth ∧
      l.keyWidth + 15 + l.refWidth + 20 + 3 ≤ l.width := by
  obtain ⟨w, hw, w1, w2⟩ := layoutWidth_defined t h
  obtain ⟨kw, ek, k1, k2⟩ := column_width (5854679515581645 / 9007199254740992) (w - 15 - 20) 42
    (by norm_num) (by norm_num) (by omega) (by omega) (by norm_num)
    (by rw [float64Mul_065_65]; norm_num)
  obtain ⟨rw, er, r1, r2⟩ := column_width (7205759403792794 / 36028797018963968) (w - 15 - 20) 13
    (by norm_num) (by norm_num) (by omega) (by omega) (by norm_num)
    (by rw [float64Mul_020_65]; norm_num)
  refine ⟨{ width := w, keyWidth := kw, sizeWidth := 15, refWidth := rw, timeWidth := 20 },
    ?_, hw, w1, rfl, rfl, k1, r1, ?_⟩
  · unfold layout
    simp only [hw, Option.some_bind, float64_065, float64_020, SIZE_COLUMN_WIDTH,
      LAST_ACCESSED_AT_COLUMN_WIDTH, ek, er]
  · have hq : (100 : ℚ) ≤ (w : ℚ) := by exact_mod_cast w1
    push_cast at k2 r2
    have : ((kw + 15 + rw + 20 + 3 : Int) : ℚ) ≤ (w : ℚ) := by
      push_cast; linarith
    exact_mod_cast this

theorem roundToFloat64_le_fine {q : ℚ} (h : 1 ≤ q) :
    roundToFloat64 q ≤ q + q * (1 / 9007199254740992) := by
  have habs : |q| = q := abs_of_pos (by linarith)
  have e := roundToFloat64_error q (by rw [habs]; exact normal_of_one_le h)
  rw [habs] at e
  have h1 := (abs_le.mp e).2
  have hv : (2 : ℚ) ^ (-53 : Int) = 1 / 9007199254740992 := by
    rw [zpow_neg]; norm_num
  rw [hv] at h1
  linarith

theorem floor_float64Mul_exact (c c0 : ℚ) (n K : Int) (hn : 65 ≤ n) (hn2 : n ≤ 2 ^ 33)
    (hc0 : c0 ≤ c) (hc1 : c ≤ c0 + 1 / 9007199254740992) (hK0 : 1 ≤ K) (hKn : K ≤ n)
    (hK1 : (K : ℚ) ≤ c0 * (n : ℚ)) (hK2 : c0 * (n : ℚ) ≤ (K : ℚ) + 19 / 20) :
    ⌊roundToFloat64 (c * (n : ℚ))⌋ = K := by
  have hnq : (65 : ℚ) ≤ (n : ℚ) := by exact_mod_cast hn
  have hnq2 : (n : ℚ) ≤ 8589934592 := by exact_mod_cast hn2
  have hKq : (1 : ℚ) ≤ (K : ℚ) := by exact_mod_cast hK0
  have hKnq : (K : ℚ) ≤ (n : ℚ) := by exact_mod_cast hKn
  have l1 : c0 * (n : ℚ) ≤ c * (n : ℚ) := mul_le_mul_of_nonneg_right hc0 (by linarith)
  have l2 : c * (n : ℚ) ≤ (c0 + 1 / 9007199254740992) * (n : ℚ) :=
    mul_le_mul_of_nonneg_right hc1 (by linarith)
  have m := roundToFloat64_mono (normal_of_one_le hKq) (le_trans hK1 l1)
  rw [roundToFloat64_intCast K (by rw [abs_of_pos (by omega)]; omega)] at m
  have b := roundToFloat64_le_fine (le_trans hKq (le_trans hK1 l1))
  rw [Int.floor_eq_iff]
  constructor
  · exact m
  · linarith

theorem layout_exact (t : Int) (h : |t| ≤ 2 ^ 32) :
    layout t = some
      { width := max t 100,
        keyWidth := ⌊(65 / 100 : ℚ) * (((max t 100 : Int) : ℚ) - 35)⌋,
        sizeWidth := 15,
        refWidth := ⌊(20 / 100 : ℚ) * (((max t 100 : Int) : ℚ) - 35)⌋,
        timeWidth := 20 } := by
  have hb := abs_le.mp h
  have hw := layoutWidth_exact t (le_trans h (by norm_num))
  set w := max t 100 with hwdef
  have w1 : 100 ≤ w := le_max_right _ _
  have w2 : w ≤ 2 ^ 32 := max_le hb.2 (by norm_num)
  obtain ⟨k42, r13, _⟩ := exact_widths_bounds w w1
  have hcast : (((w - 15 - 20 : Int)) : ℚ) = (w : ℚ) - 35 := by push_cast; ring
  have hwq : (100 : ℚ) ≤ (w : ℚ) := by exact_mod_cast w1
  have e0 : intToFloat64 (w - 15 - 20) = (w : ℚ) - 35 := by
    rw [intToFloat64_exact _ (by rw [abs_of_pos (by omega)]; omega), hcast]
  -- the key column
  have kfl := Int.floor_le ((65 / 100 : ℚ) * ((w : ℚ) - 35))
  have kfu := Int.lt_floor_add_one ((65 / 100 : ℚ) * ((w : ℚ) - 35))
  have kint : 13 * (w - 35) ≤ 20 * ⌊(65 / 100 : ℚ) * ((w : ℚ) - 35)⌋ + 19 := by
    have : ((13 * (w - 35) : Int) : ℚ) < ((20 * ⌊(65 / 100 : ℚ) * ((w : ℚ) - 35)⌋ + 20 : Int) : ℚ) := by
      push_cast; linarith
    have := (Int.cast_lt (R := ℚ)).mp this
    omega
  have kq : ((13 * (w - 35) : Int) : ℚ) ≤
      ((20 * ⌊(65 / 100 : ℚ) * ((w : ℚ) - 35)⌋ + 19 : Int) : ℚ) := by exact_mod_cast kint
  push_cast at kq
  have ekn : ⌊(65 / 100 : ℚ) * ((w : ℚ) - 35)⌋ ≤ w - 15 - 20 := by
    have : ((⌊(65 / 100 : ℚ) * ((w : ℚ) - 35)⌋ : Int) : ℚ) ≤ (((w - 15 - 20 : Int)) : ℚ) := by
      rw [hcast]; linarith
    exact (Int.cast_le (R := ℚ)).mp this
  have ek : ⌊roundToFloat64 (5854679515581645 / 9007199254740992 * ((w : ℚ) - 35))⌋
      = ⌊(65 / 100 : ℚ) * ((w : ℚ) - 35)⌋ := by
    have key := floor_float64Mul_exact (5854679515581645 / 9007199254740992) (65 / 100) (w - 15 - 20)
      ⌊(65 / 100 : ℚ) * ((w : ℚ) - 35)⌋ (by omega) (by omega) (by norm_num) (by norm_num)
      (by omega) ekn (by rw [hcast]; exact kfl) (by rw [hcast]; linarith)
    rw [hcast] at key
    exact key
  -- the ref column
  have rfl1 := Int.floor_le ((20 / 100 : ℚ) * ((w : ℚ) - 35))
  have rfu := Int.lt_floor_add_one ((20 / 100 : ℚ) * ((w : ℚ) - 35))
  have rint : (w - 35) ≤ 5 * ⌊(20 / 100 : ℚ) * ((w : ℚ) - 35)⌋ + 4 := by
    have : (((w - 35) : Int) : ℚ) < ((5 * ⌊(20 / 100 : ℚ) * ((w : ℚ) - 35)⌋ + 5 : Int) : ℚ) := by
      push_cast; linarith
    have := (Int.cast_lt (R := ℚ)).mp this
    omega
  have rq : (((w - 35) : Int) : ℚ) ≤
      ((5 * ⌊(20 / 100 : ℚ) * ((w : ℚ) - 35)⌋ + 4 : Int) : ℚ) := by exact_mod_cast rint
  push_cast at rq
  have ern : ⌊(20 / 100 : ℚ) * ((w : ℚ) - 35)⌋ ≤ w - 15 - 20 := by
    have : ((⌊(20 / 100 : ℚ) * ((w : ℚ) - 35)⌋ : Int) : ℚ) ≤ (((w - 15 - 20 : Int)) : ℚ) := by
      rw [hcast]; linarith
    exact (Int.cast_le (R := ℚ)).mp this
  have er : ⌊roundToFloat64 (7205759403792794 / 36028797018963968 * ((w : ℚ) - 35))⌋
      = ⌊(20 / 100 : ℚ) * ((w : ℚ) - 35)⌋ := by
    have key := floor_float64Mul_exact (7205759403792794 / 36028797018963968) (20 / 100) (w - 15 - 20)
      ⌊(20 / 100 : ℚ) * ((w : ℚ) - 35)⌋ (by omega) (by omega) (by norm_num) (by norm_num)
      (by omega) ern (by rw [hcast]; exact rfl1) (by rw [hcast]; linarith)
    rw [hcast] at key
    exact key
  have ek2 : float64ToInt (mathFloor (float64Mul (5854679515581645 / 9007199254740992)
      (intToFloat64 (w - 15 - 20)))) = some ⌊(65 / 100 : ℚ) * ((w : ℚ) - 35)⌋ := by
    unfold mathFloor float64Mul
    rw [e0, ek]
    exact float64ToInt_intCast _ (by omega) (by
      have : ⌊(65 / 100 : ℚ) * ((w : ℚ) - 35)⌋ ≤ w := by
        have : ((⌊(65 / 100 : ℚ) * ((w : ℚ) - 35)⌋ : Int) : ℚ) ≤ ((w : Int) : ℚ) := by linarith
        exact_mod_cast this
      omega)
  have er2 : float64ToInt (mathFloor (float64Mul (7205759403792794 / 36028797018963968)
      (intToFloat64 (w - 15 - 20)))) = some ⌊(20 / 100 : ℚ) * ((w : ℚ) - 35)⌋ := by
    unfold mathFloor float64Mul
    rw [e0, er]
    exact float64ToInt_intCast _ (by omega) (by
      have : ⌊(20 / 100 : ℚ) * ((w : ℚ) - 35)⌋ ≤ w := by
        have : ((⌊(20 / 100 : ℚ) * ((w : ℚ) - 35)⌋ : Int) : ℚ) ≤ ((w : Int) : ℚ) := by linarith
        exact_mod_cast this
      omega)
  unfold layout
  simp only [hw, Option.some_bind, float64_065, float64_020, SIZE_COLUMN_WIDTH,
    LAST_ACCESSED_AT_COLUMN_WIDTH, ek2, er2]

/-- C10. For every detected terminal width `t`, with `w = max(t, 100)`,
`keyWidth = floor(0.65 * (w - 35))` and `refWidth = floor(0.20 * (w - 35))`, and
for every cache entry and every last-accessed text, the row built by
`getFormattedCacheInfo(cache, keyWidth, 15, refWidth, 20)` exists, has byte
length exactly `keyWidth + 15 + refWidth + 20 + 3`, and that length is at most
`w`.  The same holds of the widths that lines 55-59 compute in binary64, for
every detected width below `2^63 - 512`; and for `|t| ≤ 2^32` the computed
layout is exactly the one given by the formulas. -/
theorem row_length (fromNow : GoString → GoString) (cache : ActionsCache) (t : Int) :
    (∃ row,
        getFormattedCacheInfo fromNow cache ⌊(65 / 100 : ℚ) * (((max t 100 : Int) : ℚ) - 35)⌋ 15
          ⌊(20 / 100 : ℚ) * (((max t 100 : Int) : ℚ) - 35)⌋ 20 = some row ∧
        (row.length : Int) = ⌊(65 / 100 : ℚ) * (((max t 100 : Int) : ℚ) - 35)⌋ + 15 +
          ⌊(20 / 100 : ℚ) * (((max t 100 : Int) : ℚ) - 35)⌋ + 20 + 3 ∧
        (row.length : Int) ≤ max t 100) ∧
      (t < 2 ^ 63 - 512 →
        ∃ l row, layout t = some l ∧
          getFormattedCacheInfo fromNow cache l.keyWidth l.sizeWidth l.refWidth l.timeWidth
            = some row ∧
          l.sizeWidth = 15 ∧ l.timeWidth = 20 ∧
          (row.length : Int) = l.keyWidth + 15 + l.refWidth + 20 + 3 ∧
          (row.length : Int) ≤ l.width) ∧
      (|t| ≤ 2 ^ 32 →
        layout t = some
          { width := max t 100,
            keyWidth := ⌊(65 / 100 : ℚ) * (((max t 100 : Int) : ℚ) - 35)⌋,
            sizeWidth := 15,
            refWidth := ⌊(20 / 100 : ℚ) * (((max t 100 : Int) : ℚ) - 35)⌋,
            timeWidth := 20 }) := by
  refine ⟨?_, ?_, layout_exact t⟩
  · obtain ⟨k42, r13, hsum⟩ := exact_widths_bounds (max t 100) (le_max_right _ _)
    obtain ⟨row, e, hl⟩ := getFormattedCacheInfo_length fromNow cache
      ⌊(65 / 100 : ℚ) * (((max t 100 : Int) : ℚ) - 35)⌋ 15
      ⌊(20 / 100 : ℚ) * (((max t 100 : Int) : ℚ) - 35)⌋ 20 (by omega) (by norm_num) (by omega)
      (by norm_num)
    exact ⟨row, e, by omega, by omega⟩
  · intro h
    obtain ⟨l, hl, _, _, hs, ht, hk, hr, hsum⟩ := layout_defined t h
    obtain ⟨row, e, hlen⟩ := getFormattedCacheInfo_length fromNow cache l.keyWidth l.sizeWidth
      l.refWidth l.timeWidth (by omega) (by omega) (by omega) (by omega)
    exact ⟨l, row, hl, e, hs, ht, by omega, by omega⟩

theorem row_length_witness :
    (237 : Int) < 2 ^ 63 - 512 ∧
      ∃ l row, layout 237 = some l ∧
        getFormattedCacheInfo (fun _ => str "2 days ago")
          ⟨str "Linux-node-modules", str "refs/heads/main", 2048, str "2022-06-01T10:00:00Z"⟩
          l.keyWidth l.sizeWidth l.refWidth l.timeWidth = some row ∧
        l.sizeWidth = 15 ∧ l.timeWidth = 20 ∧
        (row.length : Int) = l.keyWidth + 15 + l.refWidth + 20 + 3 ∧
        (row.length : Int) ≤ l.width :=
  ⟨by norm_num,
   (row_length (fun _ => str "2 days ago")
      ⟨str "Linux-node-modules", str "refs/heads/main", 2048, str "2022-06-01T10:00:00Z"⟩
      237).2.1 (by norm_num)⟩

/-! ## Further properties -/

theorem float64ToInt_lt {f : ℚ} {w : Int} (h : float64ToInt f = some w) : w < 2 ^ 63 := by
  unfold float64ToInt at h
  simp only at h
  split_ifs at h with h1 h2 h3
  · have : w = ⌊f⌋ := by simpa using h.symm
    rw [this]; exact h2.2
  · have : w = ⌈f⌉ := by simpa using h.symm
    rw [this]; exact h3.2

theorem layout_bounds (t : Int) (l : Layout) (h : layout t = some l) :
    100 ≤ l.width ∧ layoutWidth t = some l.width ∧ l.sizeWidth = 15 ∧ l.timeWidth = 20 ∧
      42 ≤ l.keyWidth ∧ 13 ≤ l.refWidth := by
  cases hw : layoutWidth t with
  | none => simp [layout, hw] at h
  | some w =>
    have w1 : 100 ≤ w := layoutWidth_ge t w hw
    have w2 : w < 2 ^ 63 := by
      unfold layoutWidth at hw
      exact float64ToInt_lt hw
    obtain ⟨kw, ek, k1, _⟩ := column_width (5854679515581645 / 9007199254740992) (w - 15 - 20) 42
      (by norm_num) (by norm_num) (by omega) (by omega) (by norm_num)
      (by rw [float64Mul_065_65]; norm_num)
    obtain ⟨rw, er, r1, _⟩ := column_width (7205759403792794 / 36028797018963968) (w - 15 - 20) 13
      (by norm_num) (by norm_num) (by omega) (by omega) (by norm_num)
      (by rw [float64Mul_020_65]; norm_num)
    unfold layout at h
    simp only [hw, Option.some_bind, float64_065, float64_020, SIZE_COLUMN_WIDTH,
      LAST_ACCESSED_AT_COLUMN_WIDTH, ek, er, Option.some.injEq] at h
    subst h
    exact ⟨w1, rfl, rfl, rfl, k1, r1⟩

theorem printRows_spec (fromNow : GoString → GoString) (l : Layout) (hk : 3 ≤ l.keyWidth)
    (hs : 3 ≤ l.sizeWidth) (hr : 3 ≤ l.refWidth) (ht : 3 ≤ l.timeWidth)
    (caches : List ActionsCache) :
    ∃ rows : List GoString,
      List.Forall₂
        (fun cache row =>
          getFormattedCacheInfo fromNow cache l.keyWidth l.sizeWidth l.refWidth l.timeWidth
            = some row)
        caches rows ∧
      printRows fromNow l caches = some (rows.map fun row => row ++ str "\n").flatten := by
  induction caches with
  | nil => exact ⟨[], List.Forall₂.nil, rfl⟩
  | cons cache rest ih =>
    obtain ⟨rows, hf, hp⟩ := ih
    obtain ⟨row, e, _⟩ := getFormattedCacheInfo_length fromNow cache l.keyWidth l.sizeWidth
      l.refWidth l.timeWidth hk hs hr ht
    refine ⟨row :: rows, List.Forall₂.cons e hf, ?_⟩
    simp only [printRows, e, hp, Option.some_bind, List.map_cons, List.flatten_cons,
      List.append_assoc]

/-- C13. For every error `err` (nil, HTTP or not, any status code) and every
`errMsg404`, the `InnerError` of the handled error is `err` itself, in each of
the three branches. -/
theorem HttpErrorHandler_innerError (err : GoErr) (errMsg404 : GoString) :
    (HttpErrorHandler err errMsg404).InnerError = err := by
  unfold HttpErrorHandler
  simp only
  split_ifs <;> rfl

/-- C14. For every string `value` and every width `maxSize ≥ 3`, `trimOrPad`
returns a string that a second `trimOrPad` at the same width returns unchanged:
`trimOrPad(trimOrPad(value, maxSize), maxSize) = trimOrPad(value, maxSize)`. -/
theorem trimOrPad_idempotent (value : GoString) (maxSize : Int) (h3 : 3 ≤ maxSize) :
    (∃ r, trimOrPad value maxSize = some r ∧ trimOrPad r maxSize = some r) ∧
      (trimOrPad value maxSize).bind (fun r => trimOrPad r maxSize) = trimOrPad value maxSize := by
  obtain ⟨r, e, hl⟩ := trimOrPad_length value maxSize h3
  have e2 : trimOrPad r maxSize = some r := by
    rw [trimOrPad_eq_of_le r maxSize (le_of_eq hl), hl]
    simp
  exact ⟨⟨r, e, e2⟩, by rw [e, Option.some_bind, e2]⟩

theorem trimOrPad_idempotent_witness :
    (∃ r, trimOrPad (str "refs/heads/main") 10 = some r ∧ trimOrPad r 10 = some r) ∧
      (trimOrPad (str "refs/heads/main") 10).bind (fun r => trimOrPad r 10) =
        trimOrPad (str "refs/heads/main") 10 :=
  trimOrPad_idempotent (str "refs/heads/main") 10 (by decide)

/-- C15. The unit is chosen before the rounding to two decimals, so the number
displayed can reach 1024: 1048575 bytes (below 1024*1024) are rendered as
"1024.00 KB", not "1.00 MB", and 1073741823 bytes (below 1024^3) as
"1024.00 MB". -/
theorem FormatCacheSize_boundary_rounding :
    (1048575 : ℚ) < 1024 * 1024 ∧ FormatCacheSize (.finite 1048575) = str "1024.00 KB" ∧
      FormatCacheSize (.finite 1048575) ≠ str "1.00 MB" ∧
      (1073741823 : ℚ) < 1024 ^ 3 ∧
      FormatCacheSize (.finite 1073741823) = str "1024.00 MB" := by
  decide!

theorem trimOrPad_eq_none_iff (value : GoString) (maxSize : Int) :
    trimOrPad value maxSize = none ↔ maxSize < 3 ∧ (value.length : Int) > maxSize := by
  constructor
  · intro h
    by_contra hc
    have h3 : 3 ≤ maxSize ∨ (value.length : Int) ≤ maxSize := by omega
    rcases h3 with h3 | h3
    · obtain ⟨r, e, _⟩ := trimOrPad_length value maxSize h3
      rw [e] at h; exact Option.noConfusion h
    · rw [trimOrPad_eq_of_le value maxSize h3] at h; exact Option.noConfusion h
  · rintro ⟨h1, h2⟩
    have hb : ¬ (0 ≤ maxSize - 3 ∧ maxSize - 3 ≤ (value.length : Int)) := by omega
    simp only [trimOrPad, if_pos h2, sliceTo, if_neg hb, Option.map_none']

theorem sliceTo_eq_none_iff (value : GoString) (hi : Int) :
    sliceTo value hi = none ↔ hi < 0 ∨ (value.length : Int) < hi := by
  unfold sliceTo
  split_ifs with h
  · simp only [reduceCtorEq, false_iff]; omega
  · simp only [true_iff]; omega

/-- C11. `trimOrPad` returns (the slice `value[:maxSize-3]`, when it is
evaluated, is in range) whenever `maxSize ≥ 3` or `len(value) ≤ maxSize`; it
panics exactly when `maxSize < 3` and `len(value) > maxSize`, which is exactly
when the slice is evaluated out of range.  Every layout that
`PrettyPrintCacheList` computes has `keyWidth ≥ 42`, `refWidth ≥ 13`, size
width 15 and time width 20, a layout is computed for every detected width below
`2^63 - 512`, and with such a layout the rows of every cache list are printed
without a panic. -/
theorem trimOrPad_slice_safety (fromNow : GoString → GoString) (value : GoString)
    (maxSize t : Int) :
    ((3 ≤ maxSize ∨ (value.length : Int) ≤ maxSize) → ∃ r, trimOrPad value maxSize = some r) ∧
      (trimOrPad value maxSize = none ↔ maxSize < 3 ∧ (value.length : Int) > maxSize) ∧
      (trimOrPad value maxSize = none ↔
        (value.length : Int) > maxSize ∧ sliceTo value (maxSize - 3) = none) ∧
      (∀ l, layout t = some l →
        42 ≤ l.keyWidth ∧ 13 ≤ l.refWidth ∧ l.sizeWidth = 15 ∧ l.timeWidth = 20) ∧
      (t < 2 ^ 63 - 512 → ∃ l, layout t = some l) ∧
      (∀ l caches, layout t = some l → ∃ out, printRows fromNow l caches = some out) ∧
      (∀ stdout caches, (getTerminalWidth stdout).1 = t → t < 2 ^ 63 - 512 →
        ∃ out, PrettyPrintCacheList fromNow stdout caches = some out) := by
  have hrows : ∀ l caches, layout t = some l → ∃ out, printRows fromNow l caches = some out := by
    intro l caches hl
    obtain ⟨_, _, hs, ht, hk, hr⟩ := layout_bounds t l hl
    obtain ⟨rows, _, hp⟩ := printRows_spec fromNow l (by omega) (by omega) (by omega) (by omega)
      caches
    exact ⟨_, hp⟩
  refine ⟨?_, trimOrPad_eq_none_iff value maxSize, ?_, ?_, ?_, hrows, ?_⟩
  · intro h
    cases e : trimOrPad value maxSize with
    | some r => exact ⟨r, rfl⟩
    | none =>
      have := (trimOrPad_eq_none_iff value maxSize).mp e
      omega
  · rw [trimOrPad_eq_none_iff, sliceTo_eq_none_iff]
    constructor
    · rintro ⟨h1, h2⟩; exact ⟨h2, by omega⟩
    · rintro ⟨h1, h2⟩; exact ⟨by omega, h1⟩
  · intro l hl
    obtain ⟨_, _, hs, ht, hk, hr⟩ := layout_bounds t l hl
    exact ⟨hk, hr, hs, ht⟩
  · intro h
    obtain ⟨l, hl, _⟩ := layout_defined t h
    exact ⟨l, hl⟩
  · intro stdout caches hdet h
    obtain ⟨l, hl, _⟩ := layout_defined t h
    obtain ⟨out, ho⟩ := hrows l caches hl
    exact ⟨out, by simp only [PrettyPrintCacheList, hdet, hl, Option.some_bind, ho]⟩

theorem trimOrPad_slice_safety_witness :
    (∃ r, trimOrPad (str "refs/heads/main") 3 = some r) ∧
      (∃ r, trimOrPad (str "ab") 2 = some r) ∧
      (∃ l, layout 80 = some l) ∧
      (∃ out,
        PrettyPrintCacheList (fun _ => str "2 days ago") ⟨false, (80, 24, none), false, none⟩
          [⟨str "Linux-node-modules", str "refs/heads/main", 2048, str "2022-06-01T10:00:00Z"⟩]
          = some out) :=
  ⟨(trimOrPad_slice_safety (fun _ => []) (str "refs/heads/main") 3 0).1 (Or.inl (by decide)),
   (trimOrPad_slice_safety (fun _ => []) (str "ab") 2 0).1 (Or.inr (by decide)),
   (trimOrPad_slice_safety (fun _ => []) [] 0 80).2.2.2.2.1 (by norm_num),
   (trimOrPad_slice_safety (fun _ => str "2 days ago") [] 0 80).2.2.2.2.2.2 _ _ rfl
     (by norm_num)⟩

theorem str_more : str " more\n\n" = str " more\n" ++ str "\n" := by decide

/-- C12. For every list of `n` caches (and every detected width for which a
layout is computed) `PrettyPrintTrimmedCacheList` prints the rows of exactly the
first `min(n, 30)` entries, in their order, one per line; when `n > 30` it then
prints the line "... and <n-30> more" and a blank line, when `n ≤ 30` it prints
no such line; in both cases the output ends with one more newline. -/
theorem PrettyPrintTrimmedCacheList_spec (fromNow : GoString → GoString) (stdout : Terminal)
    (caches : List ActionsCache) (hdet : (getTerminalWidth stdout).1 < 2 ^ 63 - 512) :
    ∃ (l : Layout) (rows : List GoString),
      layout (getTerminalWidth stdout).1 = some l ∧
      rows.length = min caches.length 30 ∧
      List.Forall₂
        (fun cache row =>
          getFormattedCacheInfo fromNow cache l.keyWidth l.sizeWidth l.refWidth l.timeWidth
            = some row)
        (caches.take (min caches.length 30)) rows ∧
      PrettyPrintTrimmedCacheList fromNow stdout caches =
        some ((rows.map fun row => row ++ str "\n").flatten ++
          (if caches.length > 30 then
            str "... and " ++ fmtInt ((caches.length : Int) - 30) ++ str " more\n" ++ str "\n"
           else []) ++
          str "\n") := by
  obtain ⟨l, hl, _, _, hs, ht, hk, hr, _⟩ := layout_defined _ hdet
  obtain ⟨rows, hf, hp⟩ := printRows_spec fromNow l (by omega) (by omega) (by omega) (by omega)
    (caches.take (min caches.length 30))
  have hlen : rows.length = min caches.length 30 := by
    rw [← hf.length_eq, List.length_take]
    omega
  refine ⟨l, rows, hl, hlen, hf, ?_⟩
  have ht30 : caches.take (30 : Int).toNat = caches.take 30 := rfl
  have htn : caches.take ((caches.length : Int)).toNat = caches := by simp
  unfold PrettyPrintTrimmedCacheList
  simp only
  by_cases h : (caches.length : Int) > 30
  · have hn : caches.length > 30 := by omega
    have hm : min caches.length 30 = 30 := by omega
    rw [hm] at hp
    simp only [if_pos h, if_pos hn, ht30, PrettyPrintCacheList, hl, Option.some_bind, hp,
      Option.map_some', str_more, List.append_assoc]
  · have hn : ¬ caches.length > 30 := by omega
    have hm : min caches.length 30 = caches.length := by omega
    rw [hm, List.take_length] at hp
    simp only [if_neg h, if_neg hn, htn, PrettyPrintCacheList, hl, Option.some_bind, hp,
      Option.map_some', List.append_nil]

theorem PrettyPrintTrimmedCacheList_spec_witness :
    (getTerminalWidth ⟨false, (80, 24, none), false, none⟩).1 < 2 ^ 63 - 512 ∧
      ∃ out,
        PrettyPrintTrimmedCacheList (fun _ => str "2 days ago")
          ⟨false, (80, 24, none), false, none⟩
          [⟨str "k1", str "refs/heads/main", 2048, str "t"⟩,
           ⟨str "k2", str "refs/pull/7/merge", 500, str "t"⟩] = some out :=
  ⟨by decide,
   match PrettyPrintTrimmedCacheList_spec (fun _ => str "2 days ago")
     ⟨false, (80, 24, none), false, none⟩
     [⟨str "k1", str "refs/heads/main", 2048, str "t"⟩,
      ⟨str "k2", str "refs/pull/7/merge", 500, str "t"⟩] (by decide) with
   | ⟨_, _, _, _, _, h⟩ => ⟨_, h⟩⟩

end GhActionsCache
